import Mathlib

/-!
Verification of the reactive value graph engine of the tc39 signals
repository, against its natural-language specification.

The main embedding (`namespace SignalsExample`) translates the reference
implementation in `src/example/src/signals.ts` into Lean: the graph is a
list of nodes, the mutable global context (`current_consumer`,
`current_effect`, `current_sources`, `current_untracking`,
`current_skip_consumer`) is part of the threaded machine state, and the
recursive graph walks carry an explicit fuel argument (the JavaScript
source recurses without a bound; every theorem below is either
fuel-independent or supplies enough fuel, and the one divergent
execution in the source is proved to exhaust every fuel).

Callback invocations and effect notifications are recorded in ghost logs
(`calls`, `notes`) so that "the callback is (not) re-invoked" and "the
watcher is notified" become statements about the machine state.

A second, smaller embedding (`namespace SignalsPolyfill`) covers the
polyfill wrapper file (the `Signal.State` / `Signal.Computed` /
`Signal.subtle.Watcher` classes); the wrapper's imports `graph.ts`,
`signal.ts` and `computed.ts` are not part of the sources, so the parts
of those files the wrapper relies on are modelled from the spec, as
flagged by doc comments.
-/

namespace SignalsExample

/-- JavaScript values, as far as the engine observes them.  `uninit` is the
`UNINITIALIZED` sentinel symbol.  NaN and the two signed zeros are separate
constructors, so that `Object.is` is exactly structural equality. -/
inductive JSVal where
  | uninit : JSVal
  | nan : JSVal
  | zero (neg : Bool) : JSVal
  | int (n : Int) : JSVal
  | str (s : String) : JSVal
  | boolean (b : Bool) : JSVal
  deriving DecidableEq, Repr

/-- `Object.is`.  With NaN and ±0 as distinct constructors of `JSVal`,
SameValue coincides with structural equality. -/
def objectIs (a b : JSVal) : Bool := a == b

/-- Node status: `CLEAN = 0`, `MAYBE_DIRTY = 1` (the spec's "checked"),
`DIRTY = 2`, `DESTROYED = 3`. -/
inductive Status where
  | clean : Status
  | maybeDirty : Status
  | dirty : Status
  | destroyed : Status
  deriving DecidableEq, Repr

/-- The three node kinds of the example implementation: `State`,
`Computed`, `Effect` (the example's watcher-like sink). -/
inductive NKind where
  | state : NKind
  | computed : NKind
  | effect : NKind
  deriving DecidableEq, Repr

/-- A computed/effect callback, embedded as a little program: a sequence of
node reads and state writes, ending in a pure function of the values read
(which may also throw, returning `Except.error payload`). -/
inductive Prog where
  | ret (f : List JSVal → Except JSVal JSVal) : Prog
  | get (id : Nat) (k : Prog) : Prog
  | set (id : Nat) (v : JSVal) (k : Prog) : Prog

/-- A graph node.  `consumers` and `sources` are `Option`s because the
source distinguishes `null` from an empty `Set`.  JavaScript `Set`s iterate
in insertion order, so both collections are embedded as lists without
duplicates. -/
structure Node where
  kind : NKind
  status : Status
  value : JSVal
  equals : JSVal → JSVal → Bool
  consumers : Option (List Nat)
  sources : Option (List Nat)
  prog : Prog
  unowned : Bool

/-- Placeholder returned when a node id is out of range. -/
def dummyNode : Node :=
  { kind := .state, status := .destroyed, value := .uninit, equals := objectIs,
    consumers := none, sources := none, prog := .ret (fun _ => .ok .uninit),
    unowned := true }

/-- The machine state: the node arena plus the module-level mutable context
of `signals.ts`, and two ghost logs (callback invocations, effect
notifications) used to observe the engine. -/
structure St where
  nodes : List Node
  currentConsumer : Option Nat
  currentEffect : Option Nat
  currentSources : Option (List Nat)
  currentUntracking : Bool
  currentSkip : Bool
  calls : List Nat
  notes : List Nat

def St.node (st : St) (i : Nat) : Node := st.nodes.getD i dummyNode

def St.setNode (st : St) (i : Nat) (n : Node) : St :=
  { st with nodes := st.nodes.set i n }

def St.setStatus (st : St) (i : Nat) (s : Status) : St :=
  st.setNode i { st.node i with status := s }

def St.setValue (st : St) (i : Nat) (v : JSVal) : St :=
  st.setNode i { st.node i with value := v }

def St.pushNote (st : St) (i : Nat) : St := { st with notes := st.notes ++ [i] }

def St.pushCall (st : St) (i : Nat) : St := { st with calls := st.calls ++ [i] }

/-- Weight of the clean nodes of an arena: one unit per clean node plus one
per cell of its consumer list.  `markSignalConsumers` descends only into
nodes that were clean (marking them non-clean first), so this measures the
fuel its recursion can still consume. -/
def cleanWeight : List Node → Nat
  | [] => 0
  | n :: rest =>
    (if n.status = Status.clean then (n.consumers.getD []).length + 1 else 0) +
      cleanWeight rest

/-- `notifyEffect`: the example invokes the effect's user `notify`
callback; here it is recorded in the ghost notification log. -/
def notifyEffect (st : St) (i : Nat) : St := st.pushNote i

/-- `markSignalConsumers(signal, toStatus, forceNotify)`, embedded over the
consumer list of the signal (the caller passes `signal.consumers`).  For
each consumer: skip if already `DIRTY` (or if it is the currently running
effect and `forceNotify` is false); otherwise assign `toStatus`, and if the
consumer was `CLEAN`, notify it (effects) or recurse over its consumers
with `MAYBE_DIRTY` (computeds).  The fuel only guards the recursive
descent; `markFull` below supplies provably sufficient fuel. -/
def markSignalConsumers : Nat → St → List Nat → Status → Bool → St
  | 0, st, _, _, _ => st
  | _ + 1, st, [], _, _ => st
  | f + 1, st, c :: rest, toStatus, forceNotify =>
    let n := st.node c
    let isEff := n.kind = NKind.effect
    let stepSt :=
      if n.status = Status.dirty ∨ (isEff ∧ !forceNotify ∧ st.currentEffect = some c) then
        st
      else
        let st1 := st.setStatus c toStatus
        if n.status = Status.clean then
          if isEff then
            notifyEffect st1 c
          else
            markSignalConsumers f st1 ((st1.node c).consumers.getD []) Status.maybeDirty
              forceNotify
        else st1
    markSignalConsumers f stepSt rest toStatus forceNotify

/-- An upper bound on the fuel `markSignalConsumers` can consume when
started on `ids`: one unit per list cell of `ids`, plus, for every clean
node (the only ones the recursion can descend into, each at most once),
one unit per cell of its consumer list and one for the descent itself. -/
def St.markBound (st : St) (ids : List Nat) : Nat :=
  ids.length + 1 + cleanWeight st.nodes

/-- `markSignalConsumers` with enough fuel that the depth guard can never
trigger (the source recursion is unguarded; its depth is bounded because
every descent permanently consumes a clean node). -/
def markFull (st : St) (ids : List Nat) (toStatus : Status) (forceNotify : Bool) : St :=
  markSignalConsumers (st.markBound ids) st ids toStatus forceNotify

/-- The error thrown by `State.set` during the computation phase. -/
def writeDuringComputedError : JSVal :=
  .str "Writing to state signals during the computation phase (from within computed signals) is not permitted."

/-- Run-time outcomes: a thrown JavaScript value, or fuel exhaustion of the
embedding (the source has no such bound; it corresponds to unbounded
recursion). -/
inductive RunErr where
  | thrown (v : JSVal) : RunErr
  | outOfFuel : RunErr
  deriving DecidableEq, Repr

/-- `State.prototype.set`.  Throws when called (outside `untrack`) while a
computed is the current consumer; otherwise compares with `equals` and, on
an unequal value, stores it, possibly notifies the currently running
effect, and marks consumers dirty with `forceNotify = true`. -/
def stateSet (st : St) (id : Nat) (v : JSVal) : Except RunErr Unit × St :=
  let inComputed : Bool :=
    match st.currentConsumer with
    | some c => (st.node c).kind = NKind.computed
    | none => false
  if !st.currentUntracking && inComputed then
    (.error (.thrown writeDuringComputedError), st)
  else
    let n := st.node id
    if n.equals n.value v then
      (.ok (), st)
    else
      let st1 := st.setValue id v
      let st2 :=
        match st1.currentEffect with
        | some e =>
          if (st1.node e).consumers = none ∧ (st1.node e).status = Status.clean then
            notifyEffect (st1.setStatus e Status.dirty) e
          else st1
        | none => st1
      (.ok (), markFull st2 ((st2.node id).consumers.getD []) Status.dirty true)

/-- The error thrown by `Effect.get` during the computation phase. -/
def readEffectDuringComputedError : JSVal :=
  .str "Reading effect signals during the computation phase (from within computed signals) is not permitted."

/-- `updateSignalSources`: the read-observation hook.  Registers the node on
the current consumer's in-progress source set unless the node is destroyed,
no consumer is evaluating, or untracking is in effect. -/
def updateSignalSources (st : St) (id : Nat) : St :=
  if (st.node id).status = Status.destroyed then st
  else if st.currentConsumer ≠ none ∧ st.currentUntracking = false then
    match st.currentSources with
    | none => { st with currentSources := some [id] }
    | some l => if id ∈ l then st else { st with currentSources := some (l ++ [id]) }
  else st

/-- Loop body of `removeConsumer`: for each source, delete `id` from its
consumer set (recording `size - 1` before deletion, as the source does) and,
when `removeUnowned` holds and the source is an unowned computed left with
no consumers, recursively unlink it. -/
def removeConsumerLoop : Nat → St → Nat → List Nat → Bool → St
  | 0, st, _, _, _ => st
  | _ + 1, st, _, [], _ => st
  | f + 1, st, id, s :: rest, removeUnowned =>
    let m := st.node s
    let pair : St × Nat :=
      match m.consumers with
      | none => (st, 0)
      | some l => (st.setNode s { m with consumers := some (l.erase id) }, l.length - 1)
    let st2 :=
      if removeUnowned && pair.2 == 0 && (m.kind == NKind.computed) && m.unowned then
        removeConsumerLoop f pair.1 s (((pair.1).node s).sources.getD []) true
      else pair.1
    removeConsumerLoop f st2 id rest removeUnowned

/-- `removeConsumer(signal, removeUnowned)`.  The engine only recurses here
for `removeUnowned = true` (incremental collection out of `destroySignal`);
the calls from `executeSignalCallback` pass `false`, for which the supplied
fuel (one per source plus one) provably suffices. -/
def removeConsumer (fuel : Nat) (st : St) (id : Nat) (removeUnowned : Bool) : St :=
  match (st.node id).sources with
  | none => st
  | some srcs => removeConsumerLoop fuel st id srcs removeUnowned

/-- The source-diff bookkeeping at the end of `executeSignalCallback`:
if reads were captured, drop the old back-edges, install the captured list
as `sources`, and (unless in skip-consumer mode) add the signal to each new
source's consumer set; if nothing was captured but old sources exist,
drop the back-edges and clear the (non-null) source set. -/
def rewireSources (st : St) (id : Nat) : St :=
  let fuelRC := ((st.node id).sources.getD []).length + 1
  match st.currentSources with
  | some cs =>
    let stA := removeConsumer fuelRC st id false
    let stB := stA.setNode id { stA.node id with sources := some cs }
    if st.currentSkip then stB
    else
      cs.foldl
        (fun acc s =>
          let m := acc.node s
          match m.consumers with
          | none => acc.setNode s { m with consumers := some [id] }
          | some l =>
            acc.setNode s { m with consumers := some (if id ∈ l then l else l ++ [id]) })
        stB
  | none =>
    match (st.node id).sources with
    | some _ =>
      let stA := removeConsumer fuelRC st id false
      stA.setNode id { stA.node id with sources := some [] }
    | none => st

/-- Commands of the example engine's mutually recursive core.  The six
functions `isSignalDirty`, its source-walk loop (with its trailing
status-recheck), `updateComputedSignal`, `executeSignalCallback`, callback
execution, and `Computed.get` call each other; bundling them into one
command type makes the interpreter a single structural recursion on fuel,
which the kernel can evaluate.  Named wrappers below recover the source's
function names. -/
inductive Cmd where
  | isDirty (id : Nat) : Cmd
  | walk (signal : Nat) (srcs : List Nat) : Cmd
  | recheck (signal : Nat) (src : Nat) (rest : List Nat) : Cmd
  | update (id : Nat) (forceNotify : Bool) : Cmd
  | execCb (id : Nat) : Cmd
  | runCb (p : Prog) (acc : List JSVal) : Cmd
  | getCmd (id : Nat) : Cmd

/-- Result of a command: the boolean of `isSignalDirty`, the value of a
callback or `get`, or nothing (`updateComputedSignal`). -/
inductive Res where
  | bool (b : Bool) : Res
  | val (v : JSVal) : Res
  | unit : Res
  deriving DecidableEq, Repr

/-- The engine core.  Each branch is the direct transcription of the
corresponding function of `signals.ts`; every (mutually) recursive call
consumes one unit of fuel, so the whole interpreter is structurally
recursive on fuel. -/
def interp : Nat → St → Cmd → Except RunErr Res × St
  | 0, st, _ => (.error .outOfFuel, st)
  | f + 1, st, cmd =>
    match cmd with
    | .isDirty id =>
      -- `isSignalDirty(signal)`: DIRTY is dirty; MAYBE_DIRTY triggers the
      -- consistency walk over `sources`; otherwise not dirty.
      let n := st.node id
      if n.status = Status.dirty then (.ok (.bool true), st)
      else if n.status = Status.maybeDirty then
        match n.sources with
        | none => (.ok (.bool false), st)
        | some srcs => interp f st (.walk id srcs)
      else (.ok (.bool false), st)
    | .walk _ [] => (.ok (.bool false), st)
    | .walk signal (s :: rest) =>
      -- the `for (const source of sources)` loop of `isSignalDirty`
      let sourceStatus := (st.node s).status
      if (st.node s).kind = NKind.state then
        if sourceStatus = Status.dirty then (.ok (.bool true), st.setStatus s Status.clean)
        else interp f st (.walk signal rest)
      else if sourceStatus = Status.maybeDirty then
        match interp f st (.isDirty s) with
        | (.error e, st') => (.error e, st')
        | (.ok r, st') =>
          if r = .bool false then interp f (st'.setStatus s Status.clean) (.walk signal rest)
          else interp f st' (.recheck signal s rest)
      else interp f st (.recheck signal s rest)
    | .recheck signal s rest =>
      -- the trailing `if (source.status === DIRTY)` of the walk body (the
      -- status is re-read: the recursive check may have changed it)
      if (st.node s).status = Status.dirty then
        match interp f st (.update s true) with
        | (.error e, st2) => (.error e, st2)
        | (.ok _, st2) =>
          if (st2.node signal).status = Status.dirty then (.ok (.bool true), st2)
          else interp f st2 (.walk signal rest)
      else interp f st (.walk signal rest)
    | .update id forceNotify =>
      -- `updateComputedSignal(signal, forceNotify)`
      let n := st.node id
      let st1 := st.setStatus id
        (if st.currentSkip ∨ (st.currentEffect = none ∧ n.unowned) then Status.dirty
         else Status.clean)
      match interp f st1 (.execCb id) with
      | (.error e, st2) => (.error e, st2)
      | (.ok r, st2) =>
        let v := match r with | .val v => v | _ => JSVal.uninit
        let n2 := st2.node id
        if n2.equals n2.value v = false then
          let st3 := st2.setValue id v
          (.ok .unit, markFull st3 ((st3.node id).consumers.getD []) Status.dirty forceNotify)
        else (.ok .unit, st2)
    | .execCb id =>
      -- `executeSignalCallback(signal)`: install the signal as current
      -- consumer with a fresh source accumulator and the skip-consumer
      -- flag, run the callback, do the source-diff bookkeeping on success,
      -- and restore the saved context on both paths (the `finally`).
      let prevSources := st.currentSources
      let prevConsumer := st.currentConsumer
      let prevSkip := st.currentSkip
      let n := st.node id
      let restore : St → St := fun s =>
        { s with currentSources := prevSources, currentConsumer := prevConsumer,
                 currentSkip := prevSkip }
      let st1 :=
        { st with currentSources := none, currentConsumer := some id,
                  currentSkip :=
                    st.currentEffect = none ∧ n.kind = NKind.computed ∧ n.unowned }
      let st1 := st1.pushCall id
      match interp f st1 (.runCb n.prog []) with
      | (.error e, st2) => (.error e, restore st2)
      | (.ok v, st2) => (.ok v, restore (rewireSources st2 id))
    | .runCb (.ret fn) acc =>
      -- end of a callback: apply the pure tail to the values read so far
      (match fn acc with
       | .ok v => (.ok (.val v), st)
       | .error e => (.error (.thrown e), st))
    | .runCb (.get id k) acc =>
      -- a read inside a callback dispatches on the node's kind, exactly as
      -- the corresponding `get` methods do.  `Effect.get` is embedded only
      -- as far as any claim exercises it: the computation-phase guard
      -- throws; a non-guarded effect read returns the cached value (no
      -- claim performs one).
      (match (st.node id).kind with
       | .state =>
         let st' := updateSignalSources st id
         interp f st' (.runCb k (acc ++ [(st'.node id).value]))
       | .computed =>
         match interp f st (.getCmd id) with
         | (.error e, st') => (.error e, st')
         | (.ok r, st') =>
           let v := match r with | .val v => v | _ => JSVal.uninit
           interp f st' (.runCb k (acc ++ [v]))
       | .effect =>
         let inComputed : Bool :=
           match st.currentConsumer with
           | some c => (st.node c).kind == NKind.computed
           | none => false
         if inComputed then (.error (.thrown readEffectDuringComputedError), st)
         else interp f st (.runCb k (acc ++ [(st.node id).value])))
    | .runCb (.set id v k) acc =>
      (match stateSet st id v with
       | (.error e, st') => (.error e, st')
       | (.ok _, st') => interp f st' (.runCb k acc))
    | .getCmd id =>
      -- `Computed.prototype.get`: run the read hook, recompute iff the
      -- dirtiness check says so, return the cached value.
      let st1 := updateSignalSources st id
      match interp f st1 (.isDirty id) with
      | (.error e, st2) => (.error e, st2)
      | (.ok r, st2) =>
        if r = .bool true then
          match interp f st2 (.update id false) with
          | (.error e, st3) => (.error e, st3)
          | (.ok _, st3) => (.ok (.val ((st3.node id).value)), st3)
        else (.ok (.val ((st2.node id).value)), st2)

/-- Decidable equality of run results, for `decide`-style witnesses. -/
instance {ε α : Type} [DecidableEq ε] [DecidableEq α] : DecidableEq (Except ε α) := fun a b =>
  match a, b with
  | .ok x, .ok y =>
    if h : x = y then .isTrue (by rw [h]) else .isFalse (fun hh => h (Except.ok.inj hh))
  | .error x, .error y =>
    if h : x = y then .isTrue (by rw [h]) else .isFalse (fun hh => h (Except.error.inj hh))
  | .ok _, .error _ => .isFalse (fun hh => Except.noConfusion hh)
  | .error _, .ok _ => .isFalse (fun hh => Except.noConfusion hh)

/-- `isSignalDirty`, by name. -/
def isSignalDirty (fuel : Nat) (st : St) (id : Nat) : Except RunErr Res × St :=
  interp fuel st (.isDirty id)

/-- `updateComputedSignal`, by name. -/
def updateComputedSignal (fuel : Nat) (st : St) (id : Nat) (forceNotify : Bool) :
    Except RunErr Res × St :=
  interp fuel st (.update id forceNotify)

/-- `executeSignalCallback`, by name. -/
def executeSignalCallback (fuel : Nat) (st : St) (id : Nat) : Except RunErr Res × St :=
  interp fuel st (.execCb id)

/-- `Computed.prototype.get`, by name. -/
def computedGet (fuel : Nat) (st : St) (id : Nat) : Except RunErr Res × St :=
  interp fuel st (.getCmd id)

/-- A node with its status forgotten. -/
def Node.scrub (n : Node) : Node := { n with status := Status.clean }

/-- A state with all statuses and the note log forgotten. -/
def St.scrub (st : St) : St :=
  { st with nodes := st.nodes.map Node.scrub, notes := [] }

/-- The consumer (sink) list of a node. -/
def consOf (st : St) (n : Nat) : List Nat := (st.node n).consumers.getD []

/-- Upward closure: every consumer of a non-clean computed or effect is
non-clean, except possibly the nodes of the pending set `P`.  With `P = ∅`
this is the invariant the engine maintains between operations (a node whose
producer may have changed is itself flagged).  State producers are exempt:
a freshly constructed state is dirty without its consumers being stale. -/
def Pend (st : St) (P : Set Nat) : Prop :=
  ∀ n m, m ∈ consOf st n → (st.node n).kind ≠ NKind.state →
    (st.node n).status ≠ Status.clean →
    (st.node m).status ≠ Status.clean ∨ m ∈ P

/-- Upward closure with no pending exceptions. -/
def Closed (st : St) : Prop :=
  ∀ n m, m ∈ consOf st n → (st.node n).kind ≠ NKind.state →
    (st.node n).status ≠ Status.clean →
    (st.node m).status ≠ Status.clean

/-- In engine-built graphs only computeds and effects are registered as
consumers (a state never reads anything). -/
def SinksNonState (st : St) : Prop :=
  ∀ n m, m ∈ consOf st n → (st.node m).kind ≠ NKind.state

/-- Effects never appear as producers in reachable states: `Effect.get`
does not register the effect on the reading consumer, so an effect's
consumer set stays empty. -/
def EffNoCons (st : St) : Prop :=
  ∀ n, (st.node n).kind = NKind.effect → consOf st n = []

/-- Transitive reachability along consumer (sink) edges. -/
inductive Reaches (st : St) : Nat → Nat → Prop
  | direct {n m : Nat} : m ∈ consOf st n → Reaches st n m
  | trans {n m k : Nat} : m ∈ consOf st n → Reaches st m k → Reaches st n k

/-! ### Concrete graphs used by the counterexamples and witnesses -/

/-- A `State` node as built by `new State(value)`: the `Signal` base
constructor sets `consumers = null`, `equals = options?.equals || Object.is`
(here the default), `status = DIRTY`, and stores the value. -/
def mkState (v : JSVal) : Node :=
  { kind := .state, status := .dirty, value := v, equals := objectIs,
    consumers := none, sources := none, prog := .ret (fun _ => .ok .uninit),
    unowned := true }

/-- A `State` node with a custom `equals` option. -/
def mkStateEq (v : JSVal) (eq : JSVal → JSVal → Bool) : Node :=
  { mkState v with equals := eq }

/-- A `Computed` node as built by `new Computed(cb)`: value starts as the
`UNINITIALIZED` sentinel, status `DIRTY`, `sources = null`; `unowned`
records whether `current_effect` was null at construction time. -/
def mkComputed (p : Prog) (unowned : Bool) : Node :=
  { kind := .computed, status := .dirty, value := .uninit, equals := objectIs,
    consumers := none, sources := none, prog := p, unowned := unowned }

/-- The module-level context at load time: no consumer or effect running,
no capture in progress, untracking off, empty ghost logs. -/
def initSt (ns : List Node) : St :=
  { nodes := ns, currentConsumer := none, currentEffect := none,
    currentSources := none, currentUntracking := false, currentSkip := false,
    calls := [], notes := [] }

/-- C2 replay, step 0: `T = new State(1)` (id 0), `S = new State(2)` (id 1),
`C = new Computed(() => T.get())` (id 2), `D = new Computed(() => (S.get(),
C.get(), 9))` (id 3); the computeds are built inside an effect scope so they
are owned. -/
def c2CProg : Prog := .get 0 (.ret (fun acc => .ok (acc.getD 0 .uninit)))

def c2DProg : Prog := .get 1 (.get 2 (.ret (fun _ => .ok (.int 9))))

def c2St0 : St := initSt [mkState (.int 1), mkState (.int 2),
  mkComputed c2CProg false, mkComputed c2DProg false]

/-- C2 replay, step 1: after `D.get()` everything is evaluated;
`S.consumers = {D}`, `C.consumers = {D}`, `T.consumers = {C}`. -/
def c2St1 : St := (computedGet 20 c2St0 3).2

/-- C2 replay, step 2: after `T.set(5)`, `C` is dirty and `D` — a *direct*
sink of `S` — is checked (`MAYBE_DIRTY`). -/
def c2St2 : St := (stateSet c2St1 0 (.int 5)).2

/-- C2 replay, step 3: `S.set(7)` processes its direct sink `D`, which is
currently checked. -/
def c2St3 : St := (stateSet c2St2 1 (.int 7)).2

/-- C10 graph: a state holding `+0` (id 0) with a clean computed sink
(id 1), as left by a prior evaluated read. -/
def c10St : St := initSt
  [{ mkState (.zero false) with consumers := some [1] },
   { mkComputed (.get 0 (.ret (fun acc => .ok (acc.getD 0 .uninit)))) false with
       status := .clean, value := .zero false, sources := some [0] }]

/-- C10 graph for the NaN half: a state holding NaN. -/
def c10NanSt : St := initSt [mkState .nan]

/-- C8 graph: a state with a custom always-true comparator and a sink. -/
def c8St : St := initSt
  [{ mkState (.int 3) with consumers := some [1] },
   { mkComputed (.get 0 (.ret (fun acc => .ok (acc.getD 0 .uninit)))) false with
       status := .clean, value := .int 3, sources := some [0] }]

/-- C5 graph: `s = new State(1)` (id 0) and a computed whose callback
performs `s.set(9)` (id 1). -/
def c5St : St := initSt
  [mkState (.int 1),
   mkComputed (.set 0 (.int 9) (.ret (fun _ => .ok (.int 0)))) true]

/-- The state mid-way through a computed evaluation: the computed (id 1) is
installed as `current_consumer`, untracking off. -/
def c5Mid : St := { c5St with currentConsumer := some 1 }

/-- C1 graph: `s = new State(1)` (id 0) and a computed whose callback
throws `"boom"` (id 1), constructed at top level (unowned). -/
def c1St : St := initSt
  [mkState (.int 1),
   mkComputed (.get 0 (.ret (fun _ => .error (.str "boom")))) true]

/-- C1 graph after the first (throwing) `get`. -/
def c1St1 : St := (computedGet 10 c1St 1).2

/-- C1 witness graph: an unowned computed whose callback throws
immediately. -/
def c1StW : St := initSt [mkComputed (.ret (fun _ => .error (.str "boom"))) true]

/-- C7 callback: the computed reads itself (`() => c.get()`). -/
def selfProg : Prog := .get 0 (.ret (fun acc => .ok (acc.getD 0 .uninit)))

/-- C7 graph: a self-reading computed constructed inside an effect scope
(owned). -/
def c7StOwned : St := initSt [mkComputed selfProg false]

/-- C7 graph: a self-reading computed constructed at top level (unowned). -/
def c7StUnowned : St := initSt [mkComputed selfProg true]

/-- Length of a callback program (one unit per step, including the final
return), used for fuel bookkeeping. -/
def progLen : Prog → Nat
  | .ret _ => 1
  | .get _ k => 1 + progLen k
  | .set _ _ k => 1 + progLen k

/-- Pure evaluation of a callback that only reads state nodes: the reads
return the cached values, the final function is applied to them.  `none`
when the callback writes, reads a non-state node, or throws. -/
def evalStateProg (st : St) : Prog → List JSVal → Option JSVal
  | .ret f, acc =>
    match f acc with
    | .ok v => some v
    | .error _ => none
  | .get id k, acc =>
    if (st.node id).kind = NKind.state then
      evalStateProg st k (acc ++ [(st.node id).value])
    else none
  | .set _ _ _, _ => none

/-- A node with its edge sets forgotten (everything the source-rewiring
bookkeeping can change). -/
def Node.core (n : Node) : Node := { n with consumers := none, sources := none }

/-- Concrete graph for the C3 witness: node 0 a clean state holding `5`,
node 1 a dirty computed caching `5` whose callback reads node 0 and
returns it, node 2 a maybe-dirty computed with sources `[0, 1]` caching
`42`.  A read of node 2 must prune: node 1 recomputes to an equal value. -/
def c3St : St :=
  { nodes :=
      [ { kind := .state, status := .clean, value := .int 5, equals := objectIs,
          consumers := some [1, 2], sources := none,
          prog := .ret (fun _ => .ok .uninit), unowned := false },
        { kind := .computed, status := .dirty, value := .int 5, equals := objectIs,
          consumers := some [2], sources := some [0],
          prog := .get 0 (.ret (fun acc => .ok (acc.getD 0 .uninit))),
          unowned := false },
        { kind := .computed, status := .maybeDirty, value := .int 42, equals := objectIs,
          consumers := none, sources := some [0, 1],
          prog := .ret (fun _ => .ok .uninit), unowned := false } ],
    currentConsumer := none, currentEffect := none, currentSources := none,
    currentUntracking := false, currentSkip := false, calls := [], notes := [] }

/-! ### Polyfill wrapper model (claims C4, C6, C9)

The polyfill's `wrapper.ts` is part of this repository, but the graph
core it imports (`graph.ts`, `signal.ts`, `computed.ts`) is not.  The
wrapper methods below are translated from the source; each function of
the missing core is modelled from the spec and marked as such. -/

/-- Modelled from the spec: the polyfill's global context — the
notification-phase flag — together with a minimal signal arena: cached
values, per-node dirty flags, forward edges, and a ghost log of producer
accesses. -/
structure Poly.PSt where
  inNotificationPhase : Bool
  values : List JSVal
  dirty : List Bool
  consumers : List (List Nat)
  reads : List Nat

/-- Set the dirty flag of each listed node. -/
def Poly.markDirty (d : List Bool) (ids : List Nat) : List Bool :=
  ids.foldl (fun acc i => acc.set i true) d

/-- Modelled from the spec: `signalGetFn` — a read during the
notification phase fails with the graph untouched (§7); otherwise the
access is recorded and the cached value returned. -/
def Poly.signalGetFn (st : Poly.PSt) (id : Nat) : Except String JSVal × Poly.PSt :=
  if st.inNotificationPhase then
    (.error "Reads not permitted during Watcher callback", st)
  else
    (.ok (st.values.getD id .uninit), { st with reads := st.reads ++ [id] })

/-- Modelled from the spec: `signalSetFn` — compare with the comparator
(default `Object.is`); on change store the value and dirty the direct
consumers. -/
def Poly.signalSetFn (st : Poly.PSt) (id : Nat) (v : JSVal) : Poly.PSt :=
  if objectIs (st.values.getD id .uninit) v then st
  else
    { st with values := st.values.set id v,
              dirty := Poly.markDirty st.dirty (st.consumers.getD id []) }

/-- `Signal.State.prototype.get` (wrapper.ts): after the brand check it
delegates to `signalGetFn`. -/
def Poly.stateGet (st : Poly.PSt) (id : Nat) : Except String JSVal × Poly.PSt :=
  Poly.signalGetFn st id

/-- `Signal.State.prototype.set` (wrapper.ts): after the brand check, a
write during the notification phase throws before anything happens;
otherwise it delegates to `signalSetFn`. -/
def Poly.stateSet (st : Poly.PSt) (id : Nat) (v : JSVal) :
    Except String Unit × Poly.PSt :=
  if st.inNotificationPhase then
    (.error "Writes to signals not permitted during Watcher callback", st)
  else (.ok (), Poly.signalSetFn st id v)

/-- Modelled from the spec: `computedGet` — a read during the
notification phase fails with the graph untouched (§7); otherwise the
node is brought up to date (its dirty flag cleared, the access recorded)
and its value returned.  `Signal.Computed.prototype.get` (wrapper.ts)
delegates here after its brand check. -/
def Poly.computedGet (st : Poly.PSt) (id : Nat) : Except String JSVal × Poly.PSt :=
  if st.inNotificationPhase then
    (.error "Reads not permitted during Watcher callback", st)
  else
    (.ok (st.values.getD id .uninit),
      { st with dirty := st.dirty.set id false, reads := st.reads ++ [id] })

/-- A watched producer as `getPending` sees it: the boolean dirty flag of
the missing graph core, the spec's three-colour status it stands for, and
the node's wrapper identity. -/
structure Poly.CNode where
  id : Nat
  dirty : Bool
  status : Status

/-- The spec statuses under which a node's next read may recompute. -/
def Poly.statusPending : Status → Bool
  | Status.dirty => true
  | Status.maybeDirty => true
  | _ => false

/-- `Watcher.prototype.getPending` (wrapper.ts):
`node.producerNode!.filter((n) => n.dirty).map((n) => n.wrapper)`. -/
def Poly.getPending (producerNode : List Poly.CNode) : List Nat :=
  (producerNode.filter (fun n => n.dirty)).map (fun n => n.id)

/-- Concrete arena for the C4 witness. -/
def Poly.c4St : Poly.PSt :=
  { inNotificationPhase := true, values := [.int 1, .int 2], dirty := [false, true],
    consumers := [[1], []], reads := [] }

/-- Concrete producer list for the C6 witness. -/
def Poly.c6List : List Poly.CNode :=
  [ { id := 0, dirty := false, status := Status.clean },
    { id := 1, dirty := true, status := Status.dirty },
    { id := 2, dirty := true, status := Status.maybeDirty },
    { id := 3, dirty := false, status := Status.clean } ]

/-- A producer's consumer-side bookkeeping in the missing graph core:
`liveConsumerNode` (consumer ids; in this single-watcher model the
watcher has id `0`) and `liveConsumerIndexOfThis` (for each live
consumer, the index this producer occupies in that consumer's
`producerNode`). -/
structure Poly.Producer where
  liveConsumerNode : List Nat
  liveConsumerIndexOfThis : List Nat
deriving DecidableEq

/-- The watcher's producer-side bookkeeping (`assertConsumerNode` fields
used by `unwatch`): `producerNode` (producer ids), `producerIndexOfThis`
(for each producer, the index this watcher occupies in that producer's
`liveConsumerNode`), and `nextProducerIndex`. -/
structure Poly.Watcher where
  producerNode : List Nat
  producerIndexOfThis : List Nat
  nextProducerIndex : Nat
deriving DecidableEq

/-- One watcher plus the producer arena. -/
structure Poly.USt where
  watcher : Poly.Watcher
  producers : List Poly.Producer
deriving DecidableEq

/-- A JavaScript array write: in bounds it updates, one-or-more past the
end it extends (holes modelled as `0`). -/
def Poly.jsSet (l : List Nat) (i : Nat) (v : Nat) : List Nat :=
  if i < l.length then l.set i v
  else l ++ List.replicate (i - l.length) 0 ++ [v]

def Poly.defaultProducer : Poly.Producer :=
  { liveConsumerNode := [], liveConsumerIndexOfThis := [] }

def Poly.getProducer (st : Poly.USt) (p : Nat) : Poly.Producer :=
  st.producers.getD p Poly.defaultProducer

def Poly.setProducer (st : Poly.USt) (p : Nat) (pr : Poly.Producer) : Poly.USt :=
  { st with producers := st.producers.set p pr }

/-- Modelled from the spec: `producerRemoveLiveConsumerAtIndex` of the
missing graph core — the producer-side swap-removal of the sink/source
mirror (spec invariant 2), whose exact shape the wrapper's `unwatch`
documents as its own loop "reversed".  The entry at `idx` is overwritten
by the last entry, both arrays shrink by one (`length--`), and when an
entry was really moved the moved consumer's back-index is repaired.  The
only consumer in this model is the watcher. -/
def Poly.prlcai (st : Poly.USt) (p : Nat) (idx : Nat) : Poly.USt :=
  let pr := Poly.getProducer st p
  let lastIdx := pr.liveConsumerNode.length - 1
  let lcn := (Poly.jsSet pr.liveConsumerNode idx (pr.liveConsumerNode.getD lastIdx 0)).dropLast
  let lcio := (Poly.jsSet pr.liveConsumerIndexOfThis idx
    (pr.liveConsumerIndexOfThis.getD lastIdx 0)).dropLast
  let st1 := Poly.setProducer st p
    { liveConsumerNode := lcn, liveConsumerIndexOfThis := lcio }
  if idx < lcn.length then
    let idxProducer := lcio.getD idx 0
    { st1 with watcher := { st1.watcher with
        producerIndexOfThis := Poly.jsSet st1.watcher.producerIndexOfThis idxProducer idx } }
  else st1

/-- First pass of `Watcher.prototype.unwatch` (wrapper.ts): for each
index whose producer is among the removed signals, remove this watcher
from that producer's live-consumer arrays and record the index. -/
def Poly.unwatchLoop1 (signals : List Nat) :
    List Nat → Poly.USt → List Nat → (Poly.USt × List Nat)
  | [], st, acc => (st, acc)
  | i :: rest, st, acc =>
    if st.watcher.producerNode.getD i 0 ∈ signals then
      Poly.unwatchLoop1 signals rest
        (Poly.prlcai st (st.watcher.producerNode.getD i 0)
          (st.watcher.producerIndexOfThis.getD i 0))
        (acc ++ [i])
    else Poly.unwatchLoop1 signals rest st acc

/-- Second pass of `Watcher.prototype.unwatch` (wrapper.ts): at each
recorded index, swap-remove from the watcher's own producer arrays
(JavaScript array semantics: a write one past the end extends, the
`length--` drops the last entry), decrement `nextProducerIndex`, and
repair the moved producer's back-index when the index is still in
range. -/
def Poly.unwatchLoop2 : List Nat → Poly.USt → Poly.USt
  | [], st => st
  | idx :: rest, st =>
    let w := st.watcher
    let lastIdx := w.producerNode.length - 1
    let pn := (Poly.jsSet w.producerNode idx (w.producerNode.getD lastIdx 0)).dropLast
    let pio := (Poly.jsSet w.producerIndexOfThis idx
      (w.producerIndexOfThis.getD lastIdx 0)).dropLast
    let st1 : Poly.USt :=
      { st with watcher := { producerNode := pn, producerIndexOfThis := pio, nextProducerIndex := w.nextProducerIndex - 1 } }
    let st2 :=
      if idx < pn.length then
        let idxConsumer := pio.getD idx 0
        let p := pn.getD idx 0
        let pr := Poly.getProducer st1 p
        Poly.setProducer st1 p { pr with
          liveConsumerIndexOfThis := Poly.jsSet pr.liveConsumerIndexOfThis idxConsumer idx }
      else st1
    Poly.unwatchLoop2 rest st2

/-- `Watcher.prototype.unwatch` (wrapper.ts): the two passes in order. -/
def Poly.unwatch (st : Poly.USt) (signals : List Nat) : Poly.USt :=
  let pass1 := Poly.unwatchLoop1 signals (List.range st.watcher.producerNode.length) st []
  Poly.unwatchLoop2 pass1.2 pass1.1

/-- Well-formed single-watcher bookkeeping: each watched producer lists
exactly the watcher (id `0`) with the correct back-index, the watcher's
index array is all zeroes, `nextProducerIndex` tracks the length, and no
producer is watched twice. -/
abbrev Poly.WF (st : Poly.USt) : Prop :=
  st.watcher.producerIndexOfThis =
    List.replicate st.watcher.producerNode.length 0 ∧
  st.watcher.nextProducerIndex = st.watcher.producerNode.length ∧
  st.watcher.producerNode.Nodup ∧
  ∀ i ∈ List.range st.watcher.producerNode.length,
    st.watcher.producerNode.getD i 0 < st.producers.length ∧
    Poly.getProducer st (st.watcher.producerNode.getD i 0) =
      { liveConsumerNode := [0], liveConsumerIndexOfThis := [i] }

/-- Concrete bookkeeping for C9: a watcher watching producers 0, 1, 2. -/
def Poly.c9St : Poly.USt :=
  { watcher := { producerNode := [0, 1, 2], producerIndexOfThis := [0, 0, 0], nextProducerIndex := 3 },
    producers := [ { liveConsumerNode := [0], liveConsumerIndexOfThis := [0] },
                   { liveConsumerNode := [0], liveConsumerIndexOfThis := [1] },
                   { liveConsumerNode := [0], liveConsumerIndexOfThis := [2] } ] }

/-! ### Basic lemmas about the state arena -/

theorem St.node_setNode_ne (st : St) (i j : Nat) (n : Node) (h : i ≠ j) :
    (st.setNode i n).node j = st.node j := by
  simp only [St.node, St.setNode, List.getD]
  rw [List.get?_set_ne _ _ h]

theorem St.node_setNode_self (st : St) (i : Nat) (n : Node) (h : i < st.nodes.length) :
    (st.setNode i n).node i = n := by
  simp only [St.node, St.setNode, List.getD]
  rw [List.get?_set_eq_of_lt _ h]
  rfl

theorem St.setNode_invalid (st : St) (i : Nat) (n : Node) (h : st.nodes.length ≤ i) :
    st.setNode i n = st := by
  simp only [St.setNode]
  rw [List.set_eq_of_length_le h]

theorem St.node_invalid (st : St) (i : Nat) (h : st.nodes.length ≤ i) :
    st.node i = dummyNode := by
  simp only [St.node, List.getD]
  rw [List.get?_eq_none.mpr h]
  rfl

/-- Status of a node after `setStatus`: the requested status at a valid
index, unchanged elsewhere. -/
theorem St.status_setStatus (st : St) (i j : Nat) (s : Status) :
    ((st.setStatus i s).node j).status = if i = j ∧ i < st.nodes.length then s
      else (st.node j).status := by
  by_cases hij : i = j
  · subst hij
    by_cases hlen : i < st.nodes.length
    · simp [St.setStatus, St.node_setNode_self st i _ hlen, hlen]
    · simp [St.setStatus, St.setNode_invalid st i _ (Nat.le_of_not_lt hlen), hlen]
  · simp [St.setStatus, St.node_setNode_ne st i j _ hij, hij]

theorem List.set_getD_self {α : Type} (l : List α) (i : Nat) (d : α) (h : i < l.length) :
    l.set i (l.getD i d) = l := by
  induction l generalizing i with
  | nil => simp at h
  | cons x xs ih =>
    cases i with
    | zero => simp [List.getD]
    | succ j =>
      simp only [List.set, List.getD_cons_succ]
      rw [ih j (by simpa using h)]

/-! ### Frame lemmas: marking only touches statuses and the note log -/

theorem St.scrub_setStatus (st : St) (i : Nat) (s : Status) :
    (st.setStatus i s).scrub = st.scrub := by
  by_cases h : i < st.nodes.length
  · simp only [St.scrub, St.setStatus, St.setNode, List.map_set]
    congr 1
    have hnode : Node.scrub { st.node i with status := s } = Node.scrub (st.node i) := rfl
    rw [hnode]
    have : Node.scrub (st.node i) = (st.nodes.map Node.scrub).getD i dummyNode := by
      simp only [St.node, List.getD, List.get?_map]
      rcases List.get?_eq_get (by simpa using h) with _
      rw [List.get?_eq_get (l := st.nodes) (by simpa using h)]
      rfl
    rw [this, List.set_getD_self _ _ _ (by simpa using h)]
  · rw [St.setStatus, St.setNode_invalid st i _ (Nat.le_of_not_lt h)]

theorem St.scrub_pushNote (st : St) (i : Nat) : (st.pushNote i).scrub = st.scrub := rfl

theorem scrub_markSignalConsumers (fuel : Nat) (st : St) (ids : List Nat) (ts : Status)
    (fn : Bool) : (markSignalConsumers fuel st ids ts fn).scrub = st.scrub := by
  induction fuel generalizing st ids ts with
  | zero => rfl
  | succ f ih =>
    cases ids with
    | nil => rfl
    | cons c rest =>
      show (markSignalConsumers f _ rest ts fn).scrub = st.scrub
      rw [ih]
      by_cases h1 : (st.node c).status = Status.dirty ∨
          ((st.node c).kind = NKind.effect ∧ !fn ∧ st.currentEffect = some c)
      · simp only [markSignalConsumers, h1, if_pos]
      · simp only [markSignalConsumers, h1, if_neg, not_false_iff]
        by_cases h2 : (st.node c).status = Status.clean
        · simp only [h2, if_pos]
          by_cases h3 : (st.node c).kind = NKind.effect
          · simp only [h3, if_pos, notifyEffect, St.scrub_pushNote, St.scrub_setStatus]
          · simp only [h3, if_neg, not_false_iff]
            rw [ih, St.scrub_setStatus]
        · simp only [h2, if_neg, not_false_iff, St.scrub_setStatus]

theorem Node.scrub_eq (a b : Node) (h : Node.scrub a = Node.scrub b) :
    a = { b with status := a.status } := by
  cases a; cases b
  simp only [Node.scrub, Node.mk.injEq, true_and, and_true, eq_self_iff_true] at h ⊢
  exact h

theorem mark_length (fuel : Nat) (st : St) (ids : List Nat) (ts : Status) (fn : Bool) :
    (markSignalConsumers fuel st ids ts fn).nodes.length = st.nodes.length := by
  have h := congrArg (fun s => s.nodes.length) (scrub_markSignalConsumers fuel st ids ts fn)
  simpa [St.scrub] using h

/-- Marking changes nothing about a node apart from its status. -/
theorem mark_node_eq (fuel : Nat) (st : St) (ids : List Nat) (ts : Status) (fn : Bool)
    (n : Nat) :
    (markSignalConsumers fuel st ids ts fn).node n =
      { st.node n with status := ((markSignalConsumers fuel st ids ts fn).node n).status } := by
  set st' := markSignalConsumers fuel st ids ts fn with hst'
  by_cases h : n < st.nodes.length
  · have hlen : n < st'.nodes.length := by rw [mark_length]; exact h
    have hmap := congrArg (fun s => s.nodes.getD n (Node.scrub dummyNode))
      (scrub_markSignalConsumers fuel st ids ts fn)
    simp only [St.scrub] at hmap
    have h1 : (st'.nodes.map Node.scrub).getD n (Node.scrub dummyNode) =
        Node.scrub (st'.node n) := by
      simp only [St.node, List.getD, List.get?_map]
      cases hq : st'.nodes.get? n with
      | none => exact absurd (List.get?_eq_none.mp hq) (Nat.not_le_of_lt hlen)
      | some x => rfl
    have h2 : (st.nodes.map Node.scrub).getD n (Node.scrub dummyNode) =
        Node.scrub (st.node n) := by
      simp only [St.node, List.getD, List.get?_map]
      cases hq : st.nodes.get? n with
      | none => exact absurd (List.get?_eq_none.mp hq) (Nat.not_le_of_lt h)
      | some x => rfl
    rw [h1, h2] at hmap
    exact Node.scrub_eq _ _ hmap
  · have h2 : st.nodes.length ≤ n := Nat.le_of_not_lt h
    have h3 : st'.nodes.length ≤ n := by rw [mark_length]; exact h2
    rw [St.node_invalid st n h2, St.node_invalid st' n h3]

/-- Marking leaves the global context and the invocation log unchanged. -/
theorem mark_ctx (fuel : Nat) (st : St) (ids : List Nat) (ts : Status) (fn : Bool) :
    (markSignalConsumers fuel st ids ts fn).currentConsumer = st.currentConsumer ∧
    (markSignalConsumers fuel st ids ts fn).currentEffect = st.currentEffect ∧
    (markSignalConsumers fuel st ids ts fn).currentSources = st.currentSources ∧
    (markSignalConsumers fuel st ids ts fn).currentUntracking = st.currentUntracking ∧
    (markSignalConsumers fuel st ids ts fn).currentSkip = st.currentSkip ∧
    (markSignalConsumers fuel st ids ts fn).calls = st.calls := by
  have h := scrub_markSignalConsumers fuel st ids ts fn
  refine ⟨?_, ?_, ?_, ?_, ?_, ?_⟩ <;>
    first
    | exact congrArg (fun s => s.currentConsumer) h
    | exact congrArg (fun s => s.currentEffect) h
    | exact congrArg (fun s => s.currentSources) h
    | exact congrArg (fun s => s.currentUntracking) h
    | exact congrArg (fun s => s.currentSkip) h
    | exact congrArg (fun s => s.calls) h

/-! ### Status evolution under marking -/

/-- A dirty node is never reassigned by the marking walk. -/
theorem mark_dirty_preserved (fuel : Nat) (st : St) (ids : List Nat) (ts : Status)
    (fn : Bool) (n : Nat) (h : (st.node n).status = Status.dirty) :
    ((markSignalConsumers fuel st ids ts fn).node n).status = Status.dirty := by
  induction fuel generalizing st ids ts with
  | zero => exact h
  | succ f ih =>
    cases ids with
    | nil => exact h
    | cons c rest =>
      show ((markSignalConsumers f _ rest ts fn).node n).status = Status.dirty
      apply ih
      by_cases h1 : (st.node c).status = Status.dirty ∨
          ((st.node c).kind = NKind.effect ∧ !fn ∧ st.currentEffect = some c)
      · simpa only [if_pos h1] using h
      · simp only [if_neg h1]
        have hcn : ¬(c = n ∧ c < st.nodes.length) := by
          rintro ⟨rfl, -⟩
          exact h1 (Or.inl h)
        have hset : ((st.setStatus c ts).node n).status = Status.dirty := by
          rw [St.status_setStatus, if_neg hcn]; exact h
        by_cases h2 : (st.node c).status = Status.clean
        · simp only [if_pos h2]
          by_cases h3 : (st.node c).kind = NKind.effect
          · simpa only [if_pos h3, notifyEffect, St.pushNote] using hset
          · simp only [if_neg h3]
            exact ih _ _ _ hset
        · simpa only [if_neg h2] using hset

/-- The marking walk never turns a node clean (when the requested status is
not clean, which holds for every call the engine makes). -/
theorem mark_nonclean_preserved (fuel : Nat) (st : St) (ids : List Nat) (ts : Status)
    (fn : Bool) (n : Nat) (hts : ts ≠ Status.clean)
    (h : (st.node n).status ≠ Status.clean) :
    ((markSignalConsumers fuel st ids ts fn).node n).status ≠ Status.clean := by
  induction fuel generalizing st ids ts with
  | zero => exact h
  | succ f ih =>
    cases ids with
    | nil => exact h
    | cons c rest =>
      show ((markSignalConsumers f _ rest ts fn).node n).status ≠ Status.clean
      apply ih _ _ _ hts
      by_cases h1 : (st.node c).status = Status.dirty ∨
          ((st.node c).kind = NKind.effect ∧ !fn ∧ st.currentEffect = some c)
      · simpa only [if_pos h1] using h
      · simp only [if_neg h1]
        have hset : ((st.setStatus c ts).node n).status ≠ Status.clean := by
          rw [St.status_setStatus]
          by_cases hcn : c = n ∧ c < st.nodes.length
          · rw [if_pos hcn]; exact hts
          · rw [if_neg hcn]; exact h
        by_cases h2 : (st.node c).status = Status.clean
        · simp only [if_pos h2]
          by_cases h3 : (st.node c).kind = NKind.effect
          · simpa only [if_pos h3, notifyEffect, St.pushNote] using hset
          · simp only [if_neg h3]
            exact ih _ _ _ (by simp) hset
        · simpa only [if_neg h2] using hset

/-! ### The clean-weight measure and fuel sufficiency -/

theorem cleanWeight_set_le (l : List Node) (i : Nat) (x : Node)
    (hx : x.status ≠ Status.clean) : cleanWeight (l.set i x) ≤ cleanWeight l := by
  induction l generalizing i with
  | nil => simp [cleanWeight]
  | cons y ys ih =>
    cases i with
    | zero =>
      simp only [List.set, cleanWeight, if_neg hx]
      exact Nat.add_le_add_right (Nat.zero_le _) _
    | succ j =>
      simp only [List.set, cleanWeight]
      exact Nat.add_le_add_left (ih j) _

theorem cleanWeight_set_of (l : List Node) (i : Nat) (x : Node)
    (hi : i < l.length) (hcl : (l.getD i dummyNode).status = Status.clean)
    (hx : x.status ≠ Status.clean)
    (hcons : x.consumers = (l.getD i dummyNode).consumers) :
    cleanWeight (l.set i x) + (((l.getD i dummyNode).consumers.getD []).length + 1) =
      cleanWeight l := by
  induction l generalizing i with
  | nil => simp at hi
  | cons y ys ih =>
    cases i with
    | zero =>
      simp only [List.getD_cons_zero] at hcl ⊢
      simp only [List.set, cleanWeight, if_neg hx, if_pos hcl, ← hcons]
      omega
    | succ j =>
      simp only [List.getD_cons_succ] at hcl hcons ⊢
      simp only [List.set, cleanWeight]
      have := ih j (by simpa using hi) hcl hcons
      omega

theorem cleanWeight_set_clean (l : List Node) (i : Nat) (ts : Status)
    (hi : i < l.length) (hcl : (l.getD i dummyNode).status = Status.clean)
    (hts : ts ≠ Status.clean) :
    cleanWeight (l.set i { l.getD i dummyNode with status := ts }) +
      (((l.getD i dummyNode).consumers.getD []).length + 1) = cleanWeight l :=
  cleanWeight_set_of l i _ hi hcl hts rfl

theorem mark_cleanWeight_le (fuel : Nat) (st : St) (ids : List Nat) (ts : Status)
    (fn : Bool) (hts : ts ≠ Status.clean) :
    cleanWeight (markSignalConsumers fuel st ids ts fn).nodes ≤ cleanWeight st.nodes := by
  induction fuel generalizing st ids ts with
  | zero => exact Nat.le_refl _
  | succ f ih =>
    cases ids with
    | nil => exact Nat.le_refl _
    | cons c rest =>
      show cleanWeight (markSignalConsumers f _ rest ts fn).nodes ≤ _
      refine (ih _ _ _ hts).trans ?_
      by_cases h1 : (st.node c).status = Status.dirty ∨
          ((st.node c).kind = NKind.effect ∧ !fn ∧ st.currentEffect = some c)
      · simp only [if_pos h1]
        exact Nat.le_refl _
      · simp only [if_neg h1]
        have hset : cleanWeight ((st.setStatus c ts).nodes) ≤ cleanWeight st.nodes := by
          simp only [St.setStatus, St.setNode]
          exact cleanWeight_set_le _ _ _ hts
        by_cases h2 : (st.node c).status = Status.clean
        · simp only [if_pos h2]
          by_cases h3 : (st.node c).kind = NKind.effect
          · simpa only [if_pos h3, notifyEffect, St.pushNote] using hset
          · simp only [if_neg h3]
            exact (ih _ _ _ (by simp)).trans hset
        · simpa only [if_neg h2] using hset

/-! ### Upward closure of non-cleanness and the liveness of marking -/

/-- States equal after scrubbing agree on every node up to status. -/
theorem St.scrub_node (st' st : St) (h : st'.scrub = st.scrub) (n : Nat) :
    st'.node n = { st.node n with status := (st'.node n).status } := by
  have hlen : st'.nodes.length = st.nodes.length := by
    have := congrArg (fun s => s.nodes.length) h
    simpa [St.scrub] using this
  by_cases hv : n < st.nodes.length
  · have hv' : n < st'.nodes.length := by rw [hlen]; exact hv
    have hmap := congrArg (fun s => s.nodes.getD n (Node.scrub dummyNode)) h
    simp only [St.scrub] at hmap
    have h1 : ∀ (s : St), n < s.nodes.length →
        (s.nodes.map Node.scrub).getD n (Node.scrub dummyNode) = Node.scrub (s.node n) := by
      intro s hs
      simp only [St.node, List.getD, List.get?_map]
      cases hq : s.nodes.get? n with
      | none => exact absurd (List.get?_eq_none.mp hq) (Nat.not_le_of_lt hs)
      | some x => rfl
    rw [h1 st' hv', h1 st hv] at hmap
    exact Node.scrub_eq _ _ hmap
  · rw [St.node_invalid st n (Nat.le_of_not_lt hv),
      St.node_invalid st' n (by rw [hlen]; exact Nat.le_of_not_lt hv)]

theorem consOf_setStatus (st : St) (i : Nat) (s : Status) (n : Nat) :
    consOf (st.setStatus i s) n = consOf st n := by
  unfold consOf
  rw [St.scrub_node (st.setStatus i s) st (St.scrub_setStatus st i s) n]

theorem kind_setStatus (st : St) (i : Nat) (s : Status) (n : Nat) :
    ((st.setStatus i s).node n).kind = (st.node n).kind := by
  rw [St.scrub_node (st.setStatus i s) st (St.scrub_setStatus st i s) n]

theorem consOf_mark (fuel : Nat) (st : St) (ids : List Nat) (ts : Status) (fn : Bool)
    (n : Nat) : consOf (markSignalConsumers fuel st ids ts fn) n = consOf st n := by
  unfold consOf
  rw [St.scrub_node _ st (scrub_markSignalConsumers fuel st ids ts fn) n]

theorem kind_mark (fuel : Nat) (st : St) (ids : List Nat) (ts : Status) (fn : Bool)
    (n : Nat) : ((markSignalConsumers fuel st ids ts fn).node n).kind = (st.node n).kind := by
  rw [St.scrub_node _ st (scrub_markSignalConsumers fuel st ids ts fn) n]

/-- One-step unfolding of `markSignalConsumers` on a cons cell. -/
theorem markSignalConsumers_cons (f : Nat) (st : St) (c : Nat) (rest : List Nat)
    (ts : Status) (fn : Bool) :
    markSignalConsumers (f + 1) st (c :: rest) ts fn =
      markSignalConsumers f
        (if (st.node c).status = Status.dirty ∨
            ((st.node c).kind = NKind.effect ∧ !fn ∧ st.currentEffect = some c) then st
         else
           if (st.node c).status = Status.clean then
             if (st.node c).kind = NKind.effect then
               notifyEffect (st.setStatus c ts) c
             else
               markSignalConsumers f (st.setStatus c ts)
                 (((st.setStatus c ts).node c).consumers.getD []) Status.maybeDirty fn
           else st.setStatus c ts)
        rest ts fn := rfl

/-- Main liveness lemma for the marking walk (`forceNotify = true`, the
mode `State.set` uses).  If non-cleanness is upward closed except possibly
at the pending nodes `P`, the walked list is contained in `P`, effects have
no consumers, and the fuel is at least `markBound`, then after the walk
every walked node is non-clean, and non-cleanness is upward closed except
at the pending nodes not walked. -/
theorem mark_pend (fuel : Nat) (st : St) (ids : List Nat) (ts : Status) (P : Set Nat)
    (hts : ts ≠ Status.clean) (hfuel : st.markBound ids ≤ fuel) (hEff : EffNoCons st)
    (hP : Pend st P) (hids : ∀ m ∈ ids, m ∈ P) :
    (∀ c ∈ ids, ((markSignalConsumers fuel st ids ts true).node c).status ≠ Status.clean) ∧
      Pend (markSignalConsumers fuel st ids ts true) {m | m ∈ P ∧ m ∉ ids} := by
  induction fuel generalizing st ids ts P with
  | zero =>
    exfalso
    simp only [St.markBound] at hfuel
    omega
  | succ f ih =>
    cases ids with
    | nil =>
      refine ⟨by simp, ?_⟩
      intro n m hm hk hn
      rcases hP n m hm hk hn with h | h
      · exact Or.inl h
      · exact Or.inr ⟨h, by simp⟩
    | cons c rest =>
      have patch : ∀ st' : St, ((st'.node c).status ≠ Status.clean) →
          Pend st' {m | m ∈ P ∧ m ∉ rest} → Pend st' {m | m ∈ P ∧ m ∉ c :: rest} := by
        intro st' hc hp n m hm hk hn
        rcases hp n m hm hk hn with h | ⟨hPm, hr⟩
        · exact Or.inl h
        · by_cases hmc : m = c
          · exact Or.inl (hmc ▸ hc)
          · exact Or.inr ⟨hPm, by simp [hmc, hr]⟩
      rw [markSignalConsumers_cons]
      by_cases h1 : (st.node c).status = Status.dirty ∨
          ((st.node c).kind = NKind.effect ∧ !true ∧ st.currentEffect = some c)
      · -- the sink is skipped, which (with forceNotify) means it is dirty
        have hdirty : (st.node c).status = Status.dirty := by
          rcases h1 with h | ⟨_, hb, _⟩
          · exact h
          · simp at hb
        rw [if_pos h1]
        have hbound : st.markBound rest ≤ f := by
          simp only [St.markBound] at hfuel ⊢
          simp only [List.length_cons] at hfuel
          omega
        obtain ⟨tail1, tail2⟩ := ih st rest ts P hts hbound hEff hP
          (fun m hm => hids m (List.mem_cons_of_mem _ hm))
        have hcnc : ((markSignalConsumers f st rest ts true).node c).status ≠ Status.clean :=
          mark_nonclean_preserved f st rest ts true c hts (by rw [hdirty]; simp)
        refine ⟨?_, patch _ hcnc tail2⟩
        intro d hd
        rcases List.mem_cons.mp hd with rfl | hd
        · exact hcnc
        · exact tail1 d hd
      · rw [if_neg h1]
        have hnotdirty : (st.node c).status ≠ Status.dirty := fun h => h1 (Or.inl h)
        by_cases h2 : (st.node c).status = Status.clean
        · rw [if_pos h2]
          -- the sink was clean: it is marked, and (for computeds) descended into
          have hvalid : c < st.nodes.length := by
            by_contra hv
            rw [St.node_invalid st c (Nat.le_of_not_lt hv)] at h2
            simp [dummyNode] at h2
          have hst1c : ((st.setStatus c ts).node c).status = ts := by
            rw [St.status_setStatus, if_pos ⟨rfl, hvalid⟩]
          by_cases h3 : (st.node c).kind = NKind.effect
          · rw [if_pos h3]
            -- effect sink: marked and notified, no descent; its consumer
            -- set is empty, so closure is unaffected
            set st2 := notifyEffect (st.setStatus c ts) c with hst2
            have hnode2 : ∀ k, st2.node k = (st.setStatus c ts).node k := fun _ => rfl
            have hcons2 : ∀ k, consOf st2 k = consOf st k := by
              intro k
              show consOf (st.setStatus c ts) k = consOf st k
              exact consOf_setStatus st c ts k
            have hP2 : Pend st2 P := by
              intro n m hm hk hn
              rw [hcons2] at hm
              rw [hnode2] at hn
              have hknd : (st.node n).kind ≠ NKind.state := by
                rw [hnode2, kind_setStatus] at hk
                exact hk
              by_cases hnc : n = c
              · subst hnc
                have : consOf st n = [] := hEff n h3
                rw [this] at hm
                cases hm
              · rw [St.status_setStatus, if_neg (fun hh => hnc hh.1.symm)] at hn
                rcases hP n m hm hknd hn with h | h
                · left
                  rw [hnode2, St.status_setStatus]
                  by_cases hmc : m = c ∧ c < st.nodes.length
                  · rw [if_pos ⟨hmc.1.symm, hmc.2⟩]
                    exact hts
                  · rw [if_neg (fun hh => hmc ⟨hh.1.symm, hh.2⟩)]
                    exact h
                · exact Or.inr h
            have hEff2 : EffNoCons st2 := by
              intro n hk
              rw [hcons2]
              apply hEff
              rw [hnode2, St.scrub_node (st.setStatus c ts) st (St.scrub_setStatus st c ts) n]
                at hk
              exact hk
            have hbound2 : st2.markBound rest ≤ f := by
              have hw : cleanWeight st2.nodes ≤ cleanWeight st.nodes := by
                show cleanWeight (st.setStatus c ts).nodes ≤ _
                simp only [St.setStatus, St.setNode]
                exact cleanWeight_set_le _ _ _ hts
              simp only [St.markBound, List.length_cons] at hfuel ⊢
              omega
            obtain ⟨tail1, tail2⟩ := ih st2 rest ts P hts hbound2 hEff2 hP2
              (fun m hm => hids m (List.mem_cons_of_mem _ hm))
            have hcnc : ((markSignalConsumers f st2 rest ts true).node c).status ≠
                Status.clean := by
              apply mark_nonclean_preserved f st2 rest ts true c hts
              rw [hnode2, hst1c]
              exact hts
            refine ⟨?_, patch _ hcnc tail2⟩
            intro d hd
            rcases List.mem_cons.mp hd with rfl | hd
            · exact hcnc
            · exact tail1 d hd
          · rw [if_neg h3]
            -- computed (or state) sink: marked and its consumers descended
            set st1 := st.setStatus c ts with hst1
            have hcons1 : ∀ k, consOf st1 k = consOf st k := consOf_setStatus st c ts
            have hdesc := ih st1 ((st1.node c).consumers.getD []) Status.maybeDirty
              (P ∪ {m | m ∈ consOf st c})
            have hP1 : Pend st1 (P ∪ {m | m ∈ consOf st c}) := by
              intro n m hm hk hn
              rw [show consOf st1 n = consOf st n from hcons1 n] at hm
              have hknd : (st.node n).kind ≠ NKind.state := by
                rw [hst1, kind_setStatus] at hk
                exact hk
              by_cases hnc : n = c
              · subst hnc
                exact Or.inr (Or.inr hm)
              · rw [show st1.node n = { st.node n with
                    status := (st1.node n).status } from
                    St.scrub_node st1 st (St.scrub_setStatus st c ts) n] at hn
                simp only at hn
                rw [St.status_setStatus, if_neg (fun hh => hnc hh.1.symm)] at hn
                rcases hP n m hm hknd hn with h | h
                · by_cases hmc : m = c
                  · subst hmc
                    left
                    rw [hst1c]
                    exact hts
                  · left
                    rw [St.status_setStatus, if_neg (fun hh => hmc hh.1.symm)]
                    exact h
                · exact Or.inr (Or.inl h)
            have hEff1 : EffNoCons st1 := by
              intro n hk
              rw [hcons1]
              apply hEff
              rw [← kind_setStatus st c ts n]
              exact hk
            have hwdec : cleanWeight st1.nodes + ((consOf st c).length + 1) =
                cleanWeight st.nodes := by
              show cleanWeight (st.nodes.set c _) + _ = _
              exact cleanWeight_set_of st.nodes c _ hvalid h2 hts rfl
            have hbound1 : st1.markBound ((st1.node c).consumers.getD []) ≤ f := by
              have hcc : (st1.node c).consumers.getD [] = consOf st c := hcons1 c
              rw [hcc]
              simp only [St.markBound, List.length_cons] at hfuel ⊢
              omega
            obtain ⟨desc1, desc2⟩ := hdesc (by simp) hbound1 hEff1 hP1
              (fun m hm => Or.inr (by
                have hmm : m ∈ consOf st1 c := hm
                rwa [hcons1 c] at hmm))
            set stM := markSignalConsumers f st1 ((st1.node c).consumers.getD [])
              Status.maybeDirty true with hstM
            have hPM : Pend stM P := by
              intro n m hm hk hn
              rcases desc2 n m hm hk hn with h | ⟨hPm, hnm⟩
              · exact Or.inl h
              · rcases hPm with h | h
                · exact Or.inr h
                · refine absurd ?_ hnm
                  show m ∈ consOf st1 c
                  rw [hcons1 c]
                  exact h
            have hEffM : EffNoCons stM := by
              intro n hk
              rw [hstM] at hk ⊢
              rw [kind_mark] at hk
              rw [consOf_mark]
              exact hEff1 n hk
            have hboundM : stM.markBound rest ≤ f := by
              have hwM : cleanWeight stM.nodes ≤ cleanWeight st1.nodes :=
                mark_cleanWeight_le f st1 _ Status.maybeDirty true (by simp)
              simp only [St.markBound, List.length_cons] at hfuel ⊢
              omega
            obtain ⟨tail1, tail2⟩ := ih stM rest ts P hts hboundM hEffM hPM
              (fun m hm => hids m (List.mem_cons_of_mem _ hm))
            have hcM : (stM.node c).status ≠ Status.clean := by
              apply mark_nonclean_preserved f st1 _ Status.maybeDirty true c (by simp)
              rw [hst1c]
              exact hts
            have hcnc : ((markSignalConsumers f stM rest ts true).node c).status ≠
                Status.clean := mark_nonclean_preserved f stM rest ts true c hts hcM
            refine ⟨?_, patch _ hcnc tail2⟩
            intro d hd
            rcases List.mem_cons.mp hd with rfl | hd
            · exact hcnc
            · exact tail1 d hd
        · rw [if_neg h2]
          -- the sink was maybe-dirty (or destroyed): restamped, no descent
          set st1 := st.setStatus c ts with hst1
          have hcons1 : ∀ k, consOf st1 k = consOf st k := consOf_setStatus st c ts
          have hnc1 : (st1.node c).status ≠ Status.clean := by
            rw [St.status_setStatus]
            by_cases hv : c < st.nodes.length
            · rw [if_pos ⟨rfl, hv⟩]
              exact hts
            · rw [if_neg (fun hh => hv hh.2)]
              exact h2
          have hP1 : Pend st1 P := by
            intro n m hm hk hn
            rw [hcons1] at hm
            have hknd : (st.node n).kind ≠ NKind.state := by
              rw [hst1, kind_setStatus] at hk
              exact hk
            have hnst : (st.node n).status ≠ Status.clean := by
              intro hcl
              apply hn
              rw [St.status_setStatus]
              by_cases hnc : c = n ∧ c < st.nodes.length
              · exfalso
                exact h2 (hnc.1 ▸ hcl)
              · rw [if_neg hnc]
                exact hcl
            rcases hP n m hm hknd hnst with h | h
            · left
              rw [St.status_setStatus]
              by_cases hmc : c = m ∧ c < st.nodes.length
              · rw [if_pos hmc]
                exact hts
              · rw [if_neg hmc]
                exact h
            · exact Or.inr h
          have hEff1 : EffNoCons st1 := by
            intro n hk
            rw [hcons1]
            apply hEff
            rw [hst1, kind_setStatus st c ts n] at hk
            exact hk
          have hbound1 : st1.markBound rest ≤ f := by
            have hw : cleanWeight st1.nodes ≤ cleanWeight st.nodes := by
              simp only [hst1, St.setStatus, St.setNode]
              exact cleanWeight_set_le _ _ _ hts
            simp only [St.markBound, List.length_cons] at hfuel ⊢
            omega
          obtain ⟨tail1, tail2⟩ := ih st1 rest ts P hts hbound1 hEff1 hP1
            (fun m hm => hids m (List.mem_cons_of_mem _ hm))
          have hcnc : ((markSignalConsumers f st1 rest ts true).node c).status ≠
              Status.clean := mark_nonclean_preserved f st1 rest ts true c hts hnc1
          refine ⟨?_, patch _ hcnc tail2⟩
          intro d hd
          rcases List.mem_cons.mp hd with rfl | hd
          · exact hcnc
          · exact tail1 d hd

theorem St.length_setStatus (st : St) (i : Nat) (s : Status) :
    (st.setStatus i s).nodes.length = st.nodes.length := by
  simp [St.setStatus, St.setNode]

/-- With `forceNotify`, every valid walked node ends dirty when the walk
stamps `DIRTY` (the `State.set` call). -/
theorem mark_direct (fuel : Nat) (st : St) (ids : List Nat)
    (hfuel : ids.length ≤ fuel) (c : Nat) (hc : c ∈ ids) (hv : c < st.nodes.length) :
    ((markSignalConsumers fuel st ids Status.dirty true).node c).status = Status.dirty := by
  induction fuel generalizing st ids with
  | zero =>
    simp only [Nat.le_zero, List.length_eq_zero] at hfuel
    rw [hfuel] at hc
    cases hc
  | succ f ih =>
    cases ids with
    | nil => cases hc
    | cons d rest =>
      rw [markSignalConsumers_cons]
      simp only [List.length_cons, Nat.succ_le_succ_iff] at hfuel
      by_cases h1 : (st.node d).status = Status.dirty ∨
          ((st.node d).kind = NKind.effect ∧ !true ∧ st.currentEffect = some d)
      · rw [if_pos h1]
        have hdirty : (st.node d).status = Status.dirty := by
          rcases h1 with h | ⟨_, hb, _⟩
          · exact h
          · simp at hb
        rcases List.mem_cons.mp hc with rfl | hcr
        · exact mark_dirty_preserved f st rest Status.dirty true c hdirty
        · exact ih st rest hfuel hcr hv
      · rw [if_neg h1]
        have hsetd : ∀ k, ((st.setStatus d Status.dirty).node k).status = Status.dirty →
            True := fun _ _ => trivial
        by_cases h2 : (st.node d).status = Status.clean
        · rw [if_pos h2]
          by_cases h3 : (st.node d).kind = NKind.effect
          · rw [if_pos h3]
            rcases List.mem_cons.mp hc with rfl | hcr
            · apply mark_dirty_preserved
              show ((st.setStatus c Status.dirty).node c).status = Status.dirty
              rw [St.status_setStatus, if_pos ⟨rfl, hv⟩]
            · apply ih _ rest hfuel hcr
              show c < (st.setStatus d Status.dirty).nodes.length
              rw [St.length_setStatus]
              exact hv
          · rw [if_neg h3]
            rcases List.mem_cons.mp hc with rfl | hcr
            · apply mark_dirty_preserved
              apply mark_dirty_preserved
              rw [St.status_setStatus, if_pos ⟨rfl, hv⟩]
            · apply ih _ rest hfuel hcr
              rw [mark_length, St.length_setStatus]
              exact hv
        · rw [if_neg h2]
          rcases List.mem_cons.mp hc with rfl | hcr
          · apply mark_dirty_preserved
            rw [St.status_setStatus, if_pos ⟨rfl, hv⟩]
          · apply ih _ rest hfuel hcr
            rw [St.length_setStatus]
            exact hv

/-- A `MAYBE_DIRTY` walk changes statuses only to `MAYBE_DIRTY`. -/
theorem mark_md_any (fuel : Nat) (st : St) (ids : List Nat) (fn : Bool) (n : Nat) :
    ((markSignalConsumers fuel st ids Status.maybeDirty fn).node n).status =
        (st.node n).status ∨
      ((markSignalConsumers fuel st ids Status.maybeDirty fn).node n).status =
        Status.maybeDirty := by
  induction fuel generalizing st ids with
  | zero => exact Or.inl rfl
  | succ f ih =>
    cases ids with
    | nil => exact Or.inl rfl
    | cons c rest =>
      rw [markSignalConsumers_cons]
      have hchain : ∀ st2 : St, ((st2.node n).status = (st.node n).status ∨
          (st2.node n).status = Status.maybeDirty) →
          (((markSignalConsumers f st2 rest Status.maybeDirty fn).node n).status =
             (st.node n).status ∨
           ((markSignalConsumers f st2 rest Status.maybeDirty fn).node n).status =
             Status.maybeDirty) := by
        intro st2 h2
        rcases ih st2 rest with h | h
        · rcases h2 with h2 | h2
          · exact Or.inl (h.trans h2)
          · exact Or.inr (h.trans h2)
        · exact Or.inr h
      by_cases h1 : (st.node c).status = Status.dirty ∨
          ((st.node c).kind = NKind.effect ∧ !fn ∧ st.currentEffect = some c)
      · rw [if_pos h1]
        exact hchain st (Or.inl rfl)
      · rw [if_neg h1]
        have hset : ((st.setStatus c Status.maybeDirty).node n).status =
            (st.node n).status ∨
            ((st.setStatus c Status.maybeDirty).node n).status = Status.maybeDirty := by
          rw [St.status_setStatus]
          by_cases hcn : c = n ∧ c < st.nodes.length
          · rw [if_pos hcn]; exact Or.inr rfl
          · rw [if_neg hcn]; exact Or.inl rfl
        by_cases h2 : (st.node c).status = Status.clean
        · by_cases h3 : (st.node c).kind = NKind.effect
          · rw [if_pos h2, if_pos h3]
            exact hchain _ hset
          · rw [if_pos h2, if_neg h3]
            apply hchain
            rcases ih (st.setStatus c Status.maybeDirty)
              (((st.setStatus c Status.maybeDirty).node c).consumers.getD []) with h | h
            · rcases hset with hs | hs
              · exact Or.inl (h.trans hs)
              · exact Or.inr (h.trans hs)
            · exact Or.inr h
        · rw [if_neg h2]
          exact hchain _ hset

/-- Nodes off the walked list keep their status or become `MAYBE_DIRTY`
(only the walked list itself is stamped with the requested status). -/
theorem mark_offlist (fuel : Nat) (st : St) (ids : List Nat) (ts : Status) (fn : Bool)
    (n : Nat) (hn : n ∉ ids) :
    ((markSignalConsumers fuel st ids ts fn).node n).status = (st.node n).status ∨
      ((markSignalConsumers fuel st ids ts fn).node n).status = Status.maybeDirty := by
  induction fuel generalizing st ids with
  | zero => exact Or.inl rfl
  | succ f ih =>
    cases ids with
    | nil => exact Or.inl rfl
    | cons c rest =>
      have hnc : n ≠ c := fun h => hn (h ▸ List.mem_cons_self c rest)
      have hnr : n ∉ rest := fun h => hn (List.mem_cons_of_mem c h)
      rw [markSignalConsumers_cons]
      have hchain : ∀ st2 : St, ((st2.node n).status = (st.node n).status ∨
          (st2.node n).status = Status.maybeDirty) →
          (((markSignalConsumers f st2 rest ts fn).node n).status = (st.node n).status ∨
           ((markSignalConsumers f st2 rest ts fn).node n).status = Status.maybeDirty) := by
        intro st2 h2
        rcases ih st2 rest hnr with h | h
        · rcases h2 with h2 | h2
          · exact Or.inl (h.trans h2)
          · exact Or.inr (h.trans h2)
        · exact Or.inr h
      by_cases h1 : (st.node c).status = Status.dirty ∨
          ((st.node c).kind = NKind.effect ∧ !fn ∧ st.currentEffect = some c)
      · rw [if_pos h1]
        exact hchain st (Or.inl rfl)
      · rw [if_neg h1]
        have hset : ((st.setStatus c ts).node n).status = (st.node n).status := by
          rw [St.status_setStatus, if_neg (fun hh => hnc hh.1.symm)]
        by_cases h2 : (st.node c).status = Status.clean
        · by_cases h3 : (st.node c).kind = NKind.effect
          · rw [if_pos h2, if_pos h3]
            exact hchain _ (Or.inl hset)
          · rw [if_pos h2, if_neg h3]
            apply hchain
            rcases mark_md_any f (st.setStatus c ts)
              (((st.setStatus c ts).node c).consumers.getD []) fn n with h | h
            · exact Or.inl (h.trans hset)
            · exact Or.inr h
        · rw [if_neg h2]
          exact hchain _ (Or.inl hset)

theorem reaches_congr (σ' σ : St) (hc : ∀ k, consOf σ' k = consOf σ k) {n m : Nat}
    (h : Reaches σ n m) : Reaches σ' n m := by
  induction h with
  | direct hm => exact Reaches.direct (by rw [hc]; exact hm)
  | trans hm _ ih => exact Reaches.trans (by rw [hc]; exact hm) ih

theorem closed_reaches (σ : St) (hcl : Closed σ) (hsk : SinksNonState σ) {n m : Nat}
    (h : Reaches σ n m) (hkn : (σ.node n).kind ≠ NKind.state)
    (hn : (σ.node n).status ≠ Status.clean) : (σ.node m).status ≠ Status.clean := by
  induction h with
  | direct hm => exact hcl _ _ hm hkn hn
  | trans hm _ ih => exact ih (hsk _ _ hm) (hcl _ _ hm hkn hn)

theorem St.node_setValue (st : St) (i : Nat) (v : JSVal) (j : Nat) :
    (st.setValue i v).node j =
      if i = j ∧ i < st.nodes.length then { st.node i with value := v } else st.node j := by
  by_cases hij : i = j
  · subst hij
    by_cases hlen : i < st.nodes.length
    · simp [St.setValue, St.node_setNode_self st i _ hlen, hlen]
    · simp [St.setValue, St.setNode_invalid st i _ (Nat.le_of_not_lt hlen), hlen]
  · simp [St.setValue, St.node_setNode_ne st i j _ hij, hij]

theorem status_setValue (st : St) (i : Nat) (v : JSVal) (j : Nat) :
    ((st.setValue i v).node j).status = (st.node j).status := by
  rw [St.node_setValue]
  by_cases h : i = j ∧ i < st.nodes.length
  · rw [if_pos h]
    simp [h.1]
  · rw [if_neg h]

theorem consOf_setValue (st : St) (i : Nat) (v : JSVal) (j : Nat) :
    consOf (st.setValue i v) j = consOf st j := by
  unfold consOf
  rw [St.node_setValue]
  by_cases h : i = j ∧ i < st.nodes.length
  · rw [if_pos h]
    simp [h.1]
  · rw [if_neg h]

theorem kind_setValue (st : St) (i : Nat) (v : JSVal) (j : Nat) :
    ((st.setValue i v).node j).kind = (st.node j).kind := by
  rw [St.node_setValue]
  by_cases h : i = j ∧ i < st.nodes.length
  · rw [if_pos h]
    simp [h.1]
  · rw [if_neg h]

theorem St.length_setValue (st : St) (i : Nat) (v : JSVal) :
    (st.setValue i v).nodes.length = st.nodes.length := by
  simp [St.setValue, St.setNode]

/-! ### Bounded introductions of the graph invariants, for concrete states -/

theorem closed_of_bounded (st : St)
    (h : ∀ n, n < st.nodes.length → ∀ m ∈ consOf st n,
      (st.node n).kind ≠ NKind.state → (st.node n).status ≠ Status.clean →
      (st.node m).status ≠ Status.clean) : Closed st := by
  intro n m hm hk hn
  by_cases hv : n < st.nodes.length
  · exact h n hv m hm hk hn
  · rw [show consOf st n = [] by
      unfold consOf
      rw [St.node_invalid st n (Nat.le_of_not_lt hv)]
      rfl] at hm
    cases hm

theorem sinksNonState_of_bounded (st : St)
    (h : ∀ n, n < st.nodes.length → ∀ m ∈ consOf st n,
      (st.node m).kind ≠ NKind.state) : SinksNonState st := by
  intro n m hm
  by_cases hv : n < st.nodes.length
  · exact h n hv m hm
  · rw [show consOf st n = [] by
      unfold consOf
      rw [St.node_invalid st n (Nat.le_of_not_lt hv)]
      rfl] at hm
    cases hm

theorem effNoCons_of_bounded (st : St)
    (h : ∀ n, n < st.nodes.length → (st.node n).kind = NKind.effect → consOf st n = []) :
    EffNoCons st := by
  intro n hk
  by_cases hv : n < st.nodes.length
  · exact h n hv hk
  · unfold consOf
    rw [St.node_invalid st n (Nat.le_of_not_lt hv)]
    rfl

/-! ### Context frame facts for `setValue` (record updates, definitional) -/

theorem currentEffect_setValue (st : St) (i : Nat) (v : JSVal) :
    (st.setValue i v).currentEffect = st.currentEffect := rfl

theorem currentConsumer_setValue (st : St) (i : Nat) (v : JSVal) :
    (st.setValue i v).currentConsumer = st.currentConsumer := rfl

/-! ### Claim C2 -/

/-- C2, counterexample: the claim says a direct sink that is currently
*checked* is left unchanged by `S.set(v)`.  In the replayed engine history
`c2St2`, node 3 (`D`) is a direct sink of `S` (node 1) and is checked;
after `S.set(7)` it is *dirty*, not checked: `markSignalConsumers` stamps
every non-dirty direct sink with `DIRTY`. -/
theorem c2_counterexample :
    (c2St2.node 3).status = Status.maybeDirty ∧ (3 : Nat) ∈ consOf c2St2 1 ∧
      (c2St3.node 3).status = Status.dirty := by
  refine ⟨by decide, by decide, by decide⟩

/-- C2 (amended): for a state `S` and a value `v` with `eq(S.value, v)`
false, a top-level `S.set(v)` (no consumer or effect evaluating, closure
invariants of engine states holding) returns normally and: (1) every valid
direct sink of `S` — whether clean *or checked* — ends dirty (a checked
direct sink is promoted to dirty, not left unchanged); (2) every dirty node
stays dirty (no dirty node regresses to checked); (3) every transitive
ancestor reachable via sinks is non-clean afterwards; (4) every clean
non-direct ancestor becomes checked; (5) every checked non-direct node
stays checked. -/
theorem c2_theorem (st : St) (S : Nat) (v : JSVal)
    (hcons : st.currentConsumer = none)
    (heff : st.currentEffect = none)
    (hneq : (st.node S).equals (st.node S).value v = false)
    (hcl : Closed st) (hEff : EffNoCons st) (hsk : SinksNonState st) :
    (stateSet st S v).1 = .ok () ∧
    (∀ c ∈ consOf st S, c < st.nodes.length →
      (((stateSet st S v).2).node c).status = Status.dirty) ∧
    (∀ n, (st.node n).status = Status.dirty →
      (((stateSet st S v).2).node n).status = Status.dirty) ∧
    (∀ m, Reaches st S m → (((stateSet st S v).2).node m).status ≠ Status.clean) ∧
    (∀ m, m ∉ consOf st S → (st.node m).status = Status.clean → Reaches st S m →
      (((stateSet st S v).2).node m).status = Status.maybeDirty) ∧
    (∀ m, m ∉ consOf st S → (st.node m).status = Status.maybeDirty →
      (((stateSet st S v).2).node m).status = Status.maybeDirty) := by
  have hid : stateSet st S v = (Except.ok (),
      markFull (st.setValue S v) (((st.setValue S v).node S).consumers.getD [])
        Status.dirty true) := by
    simp only [stateSet, hcons, Bool.and_false, Bool.false_eq_true, if_false, hneq,
      currentEffect_setValue, heff]
  rw [hid]
  dsimp only [markFull]
  set st1 := st.setValue S v with hst1
  set ids := ((st1.node S).consumers.getD []) with hids_def
  have hcons_eq : ids = consOf st S := by
    show consOf st1 S = consOf st S
    exact consOf_setValue st S v S
  have hstat1 : ∀ x, (st1.node x).status = (st.node x).status := status_setValue st S v
  have hkind1 : ∀ x, (st1.node x).kind = (st.node x).kind := kind_setValue st S v
  have hcons1 : ∀ x, consOf st1 x = consOf st x := consOf_setValue st S v
  have hlen1 : st1.nodes.length = st.nodes.length := St.length_setValue st S v
  have hcl1 : Closed st1 := by
    intro n m hm hk hn
    rw [hstat1]
    refine hcl n m ?_ ?_ ?_
    · rwa [hcons1] at hm
    · rwa [hkind1] at hk
    · rwa [hstat1] at hn
  have hEff1 : EffNoCons st1 := by
    intro n hk
    rw [hcons1]
    apply hEff
    rwa [hkind1] at hk
  have hsk1 : SinksNonState st1 := by
    intro n m hm
    rw [hkind1]
    apply hsk n m
    rwa [hcons1] at hm
  set fuel := st1.markBound ids with hfuel_def
  set stR := markSignalConsumers fuel st1 ids Status.dirty true with hstR
  have hpend := mark_pend fuel st1 ids Status.dirty {m | m ∈ ids} (by simp)
    (Nat.le_refl _) hEff1
    (fun n m hm hk hn => Or.inl (hcl1 n m hm hk hn)) (fun m hm => hm)
  obtain ⟨hlive, hpendR⟩ := hpend
  have hclR : Closed stR := by
    intro n m hm hk hn
    rcases hpendR n m hm hk hn with h | ⟨h1, h2⟩
    · exact h
    · exact absurd h1 h2
  have hconsR : ∀ x, consOf stR x = consOf st x := by
    intro x
    rw [hstR, consOf_mark, hcons1]
  have hkindR : ∀ x, (stR.node x).kind = (st.node x).kind := by
    intro x
    rw [hstR, kind_mark, hkind1]
  have hskR : SinksNonState stR := by
    intro n m hm
    rw [hkindR]
    apply hsk n m
    rwa [hconsR] at hm
  have hlenfuel : ids.length ≤ fuel := by
    rw [hfuel_def]
    simp only [St.markBound]
    omega
  have hreach : ∀ m, Reaches st S m → (stR.node m).status ≠ Status.clean := by
    intro m hre
    cases hre with
    | direct hm =>
      exact hlive m (by rw [hcons_eq]; exact hm)
    | trans hm hr =>
      rename_i c1
      have hc1 : (stR.node c1).status ≠ Status.clean :=
        hlive c1 (by rw [hcons_eq]; exact hm)
      have hkc1 : (stR.node c1).kind ≠ NKind.state := by
        rw [hkindR]
        exact hsk S c1 hm
      exact closed_reaches stR hclR hskR (reaches_congr stR st hconsR hr) hkc1 hc1
  refine ⟨rfl, ?_, ?_, ?_, ?_, ?_⟩
  · intro c hc hv
    exact mark_direct fuel st1 ids hlenfuel c (by rw [hcons_eq]; exact hc)
      (by rw [hlen1]; exact hv)
  · intro n hn
    exact mark_dirty_preserved fuel st1 ids Status.dirty true n (by rw [hstat1]; exact hn)
  · exact hreach
  · intro m hm hclean hre
    rcases mark_offlist fuel st1 ids Status.dirty true m
      (by rw [hcons_eq]; exact hm) with h | h
    · exfalso
      apply hreach m hre
      rw [← hstR] at h
      rw [h, hstat1]
      exact hclean
    · exact h
  · intro m hm hmd
    rcases mark_offlist fuel st1 ids Status.dirty true m
      (by rw [hcons_eq]; exact hm) with h | h
    · rw [← hstR] at h
      rw [h, hstat1]
      exact hmd
    · exact h

/-- Witness for C2 (amended), at the replayed state `c2St1` with
`S.set(7)`: its hypotheses hold and the theorem applies. -/
theorem c2_theorem_witness :
    (stateSet c2St1 1 (.int 7)).1 = .ok () ∧
      (∀ c ∈ consOf c2St1 1, c < c2St1.nodes.length →
        (((stateSet c2St1 1 (.int 7)).2).node c).status = Status.dirty) := by
  have h := c2_theorem c2St1 1 (.int 7) (by decide) (by decide) (by decide)
    (closed_of_bounded _ (by decide)) (effNoCons_of_bounded _ (by decide))
    (sinksNonState_of_bounded _ (by decide))
  exact ⟨h.1, h.2.1⟩

/-- Marking does not change any node's value. -/
theorem mark_value (fuel : Nat) (st : St) (ids : List Nat) (ts : Status) (fn : Bool)
    (n : Nat) :
    ((markSignalConsumers fuel st ids ts fn).node n).value = (st.node n).value := by
  rw [mark_node_eq]

/-! ### Claim C10 -/

/-- C10: a state built without an `equals` option compares with `Object.is`
(`this.equals = options?.equals || Object.is`): writing NaN over NaN
returns with no effect at all (`Object.is(NaN, NaN)` is true), while
writing `-0` over `+0` is a change (`Object.is(+0, -0)` is false): the
value is stored and every valid direct sink is marked dirty. -/
theorem c10_theorem (st : St) (S : Nat)
    (heqfn : (st.node S).equals = objectIs)
    (hcons : st.currentConsumer = none)
    (heff : st.currentEffect = none)
    (hvalid : S < st.nodes.length) :
    ((st.node S).value = .nan → stateSet st S .nan = (.ok (), st)) ∧
    ((st.node S).value = .zero false →
      (stateSet st S (.zero true)).1 = .ok () ∧
      (((stateSet st S (.zero true)).2).node S).value = .zero true ∧
      ∀ c ∈ consOf st S, c < st.nodes.length →
        (((stateSet st S (.zero true)).2).node c).status = Status.dirty) := by
  constructor
  · intro hval
    have heq : (st.node S).equals (st.node S).value JSVal.nan = true := by
      rw [heqfn, hval]
      rfl
    simp only [stateSet, hcons, Bool.and_false, Bool.false_eq_true, if_false, heq, if_true]
  · intro hval
    have hneq : (st.node S).equals (st.node S).value (JSVal.zero true) = false := by
      rw [heqfn, hval]
      rfl
    have hid : stateSet st S (.zero true) = (Except.ok (),
        markFull (st.setValue S (.zero true))
          (((st.setValue S (.zero true)).node S).consumers.getD [])
          Status.dirty true) := by
      simp only [stateSet, hcons, Bool.and_false, Bool.false_eq_true, if_false, hneq,
        currentEffect_setValue, heff]
    rw [hid]
    dsimp only [markFull]
    set st1 := st.setValue S (.zero true) with hst1
    set ids := ((st1.node S).consumers.getD []) with hids_def
    set fuel := st1.markBound ids with hfuel_def
    refine ⟨rfl, ?_, ?_⟩
    · rw [mark_value]
      rw [hst1, St.node_setValue, if_pos ⟨rfl, hvalid⟩]
    · intro c hc hcv
      have hcons_eq : ids = consOf st S := consOf_setValue st S (.zero true) S
      have hlenfuel : ids.length ≤ fuel := by
        rw [hfuel_def]
        simp only [St.markBound]
        omega
      exact mark_direct fuel st1 ids hlenfuel c (by rw [hcons_eq]; exact hc)
        (by rw [St.length_setValue]; exact hcv)

/-- Witness for C10 at the concrete graphs `c10NanSt` (NaN half) and
`c10St` (signed-zero half). -/
theorem c10_theorem_witness :
    (stateSet c10NanSt 0 .nan = (.ok (), c10NanSt)) ∧
      ((((stateSet c10St 0 (.zero true)).2).node 0).value = .zero true ∧
        (((stateSet c10St 0 (.zero true)).2).node 1).status = Status.dirty) := by
  have h1 := c10_theorem c10NanSt 0 rfl rfl rfl (by decide)
  have h2 := c10_theorem c10St 0 rfl rfl rfl (by decide)
  refine ⟨h1.1 rfl, (h2.2 rfl).2.1, ?_⟩
  exact (h2.2 rfl).2.2 1 (by decide) (by decide)

/-! ### Claim C8 -/

/-- C8: if `eq(S.value, v)` returns true, a (top-level) `S.set(v)` returns
with no effect whatsoever: the machine state — values, statuses, sink and
source lists, the notification log and the invocation log — is exactly the
state before the call. -/
theorem c8_theorem (st : St) (S : Nat) (v : JSVal)
    (hcons : st.currentConsumer = none)
    (heq : (st.node S).equals (st.node S).value v = true) :
    stateSet st S v = (.ok (), st) := by
  simp only [stateSet, hcons, Bool.and_false, Bool.false_eq_true, if_false, heq, if_true]

/-- Witness for C8: a state with an always-true comparator default
(`Object.is` on an equal value) at the concrete graph `c8St`. -/
theorem c8_theorem_witness : stateSet c8St 0 (.int 3) = (.ok (), c8St) :=
  c8_theorem c8St 0 (.int 3) rfl (by decide)

/-! ### Claim C5 -/

/-- C5, counterexample: the claim says `S.set(v)` from within a computed
callback succeeds and marks sinks.  Concretely, the first `get` of a
computed whose callback writes a state throws the "Writing to state
signals during the computation phase" error, and the state's value is
unchanged. -/
theorem c5_counterexample :
    (computedGet 10 c5St 1).1 = .error (.thrown writeDuringComputedError) ∧
      (((computedGet 10 c5St 1).2).node 0).value = .int 1 := by
  refine ⟨by decide, by decide⟩

/-- C5 (amended): `State.prototype.set` called while a computed is the
current consumer and untracking is off throws an `Error` and leaves the
machine state unchanged; no sink is marked.  (Re-entrant writes are only
possible through `untrack`.) -/
theorem c5_theorem (st : St) (S C : Nat) (v : JSVal)
    (hcur : st.currentConsumer = some C)
    (hkind : (st.node C).kind = NKind.computed)
    (huntrack : st.currentUntracking = false) :
    stateSet st S v = (.error (.thrown writeDuringComputedError), st) := by
  simp only [stateSet, hcur, hkind, huntrack, Bool.not_false, Bool.true_and, decide_True,
    if_true]

/-- Witness for C5 (amended) at the mid-evaluation state `c5Mid`. -/
theorem c5_theorem_witness :
    stateSet c5Mid 0 (.int 9) = (.error (.thrown writeDuringComputedError), c5Mid) :=
  c5_theorem c5Mid 0 1 (.int 9) rfl (by decide) rfl

theorem St.node_setStatus_frame (st : St) (i : Nat) (s : Status) (j : Nat) :
    (st.setStatus i s).node j =
      { st.node j with status := ((st.setStatus i s).node j).status } :=
  St.scrub_node _ _ (St.scrub_setStatus st i s) j

theorem prog_setStatus (st : St) (i : Nat) (s : Status) (j : Nat) :
    ((st.setStatus i s).node j).prog = (st.node j).prog := by
  rw [St.node_setStatus_frame]

theorem value_setStatus (st : St) (i : Nat) (s : Status) (j : Nat) :
    ((st.setStatus i s).node j).value = (st.node j).value := by
  rw [St.node_setStatus_frame]

/-! ### Claim C1 -/

/-- C1, counterexample: the claim says the thrown exception is stored as
the cached payload and re-thrown on later reads *without re-invoking the
callback*.  Concretely, at `c1St`: the first `get` throws, the value slot
still holds the uninitialized sentinel (no error is cached), and the
second `get` invokes the callback a second time (the invocation log after
two reads is `[1, 1]`, where the claim implies `[1]`). -/
theorem c1_counterexample :
    (computedGet 10 c1St 1).1 = .error (.thrown (.str "boom")) ∧
      (c1St1.node 1).value = .uninit ∧
      ((computedGet 10 c1St1 1).2).calls = [1, 1] := by
  refine ⟨by decide, by decide, by decide⟩

/-- C1 (amended): the example implementation does not cache errors.  For
an unowned computed in `DIRTY` state whose callback throws `e`, a
top-level `get` invokes the callback (appending to the invocation log),
propagates `e` to the caller, leaves the cached value slot untouched and
the status `DIRTY` — so every subsequent `get` re-invokes the callback and
re-throws a freshly produced exception rather than a stored one. -/
theorem c1_theorem (k : Nat) (st : St) (C : Nat) (e : JSVal)
    (pf : List JSVal → Except JSVal JSVal)
    (hstatus : (st.node C).status = Status.dirty)
    (hunowned : (st.node C).unowned = true)
    (hprog : (st.node C).prog = Prog.ret pf)
    (hpf : ∀ acc, pf acc = .error e)
    (hcons : st.currentConsumer = none)
    (heff : st.currentEffect = none) :
    (computedGet (k + 4) st C).1 = .error (.thrown e) ∧
      (((computedGet (k + 4) st C).2).node C).value = (st.node C).value ∧
      (((computedGet (k + 4) st C).2).node C).status = Status.dirty ∧
      ((computedGet (k + 4) st C).2).calls = st.calls ++ [C] := by
  have hnd : (st.node C).status ≠ Status.destroyed := by rw [hstatus]; simp
  have huss : updateSignalSources st C = st := by
    simp only [updateSignalSources, hstatus, hcons]
    simp
  have hskip : (st.currentSkip ∨ (st.currentEffect = none ∧ (st.node C).unowned)) := by
    right
    exact ⟨heff, by simp [hunowned]⟩
  have hrun : computedGet (k + 4) st C =
      (.error (.thrown e),
        { st.setStatus C Status.dirty with
            currentSources := st.currentSources,
            currentConsumer := st.currentConsumer,
            currentSkip := st.currentSkip,
            calls := st.calls ++ [C] }) := by
    show interp (k + 4) st (.getCmd C) = _
    simp only [interp, huss, hstatus]
    simp only [if_pos rfl, reduceCtorEq, if_false, if_true, if_pos hskip]
    simp only [prog_setStatus, hprog, hpf]
    rfl
  rw [hrun]
  refine ⟨rfl, ?_, ?_, rfl⟩
  · show ((st.setStatus C Status.dirty).node C).value = (st.node C).value
    exact value_setStatus st C Status.dirty C
  · show ((st.setStatus C Status.dirty).node C).status = Status.dirty
    rw [St.status_setStatus]
    by_cases h : C = C ∧ C < st.nodes.length
    · rw [if_pos h]
    · rw [if_neg h]
      exact hstatus

/-- Witness for C1 (amended) at the concrete graph `c1StW`. -/
theorem c1_theorem_witness :
    (computedGet 10 c1StW 0).1 = .error (.thrown (.str "boom")) ∧
      (((computedGet 10 c1StW 0).2).node 0).value = (c1StW.node 0).value := by
  have h := c1_theorem 6 c1StW 0 (.str "boom") (fun _ => .error (.str "boom"))
    (by decide) (by decide) rfl (fun _ => rfl) rfl rfl
  exact ⟨h.1, h.2.1⟩

/-! ### Claim C7 -/

theorem node_uss (st : St) (id n : Nat) : (updateSignalSources st id).node n = st.node n := by
  unfold updateSignalSources
  split
  · rfl
  · split
    · split <;> first | rfl | split <;> rfl
    · rfl

theorem currentEffect_uss (st : St) (id : Nat) :
    (updateSignalSources st id).currentEffect = st.currentEffect := by
  unfold updateSignalSources
  split
  · rfl
  · split
    · split <;> first | rfl | split <;> rfl
    · rfl

theorem length_uss (st : St) (id : Nat) :
    (updateSignalSources st id).nodes.length = st.nodes.length := by
  unfold updateSignalSources
  split
  · rfl
  · split
    · split <;> first | rfl | split <;> rfl
    · rfl

theorem currentEffect_setStatus (st : St) (i : Nat) (s : Status) :
    (st.setStatus i s).currentEffect = st.currentEffect := rfl

theorem unowned_setStatus (st : St) (i : Nat) (s : Status) (j : Nat) :
    ((st.setStatus i s).node j).unowned = (st.node j).unowned := by
  rw [St.node_setStatus_frame]

theorem kind_setStatus_node (st : St) (i : Nat) (s : Status) (j : Nat) :
    ((st.setStatus i s).node j).kind = (st.node j).kind := kind_setStatus st i s j

/-- The self-reading unowned computed re-enters its own recomputation: at
every fuel the interpreter runs out rather than completing (the source has
no cycle check on this path and recurses without bound). -/
theorem c7_aux : ∀ (fuel : Nat) (st : St),
    (st.node 0).status = Status.dirty → (st.node 0).kind = NKind.computed →
    (st.node 0).unowned = true → (st.node 0).prog = selfProg →
    st.currentEffect = none → 0 < st.nodes.length →
    (interp fuel st (.getCmd 0)).1 = .error .outOfFuel := by
  intro fuel
  induction fuel using Nat.strong_induction_on with
  | _ fuel ih =>
    intro st h1 h2 h3 h4 h5 h6
    rcases fuel with _ | f
    · rfl
    rcases f with _ | f
    · rfl
    set st1 := updateSignalSources st 0 with hst1
    have h1a : (st1.node 0).status = Status.dirty := by rw [hst1, node_uss]; exact h1
    have hcond : st1.currentSkip ∨ (st1.currentEffect = none ∧ (st1.node 0).unowned) := by
      right
      rw [hst1, currentEffect_uss, node_uss]
      exact ⟨h5, by simp [h3]⟩
    show ((match interp (f + 1) st1 (.isDirty 0) with
      | (.error e, st2) => (.error e, st2)
      | (.ok r, st2) =>
        if r = .bool true then
          match interp (f + 1) st2 (.update 0 false) with
          | (.error e, st3) => (.error e, st3)
          | (.ok _, st3) => (.ok (.val ((st3.node 0).value)), st3)
        else (.ok (.val ((st2.node 0).value)), st2) :
      Except RunErr Res × St)).1 = .error .outOfFuel
    have hdirty : interp (f + 1) st1 (.isDirty 0) = (.ok (.bool true), st1) := by
      simp only [interp, h1a]
      simp
    rw [hdirty]
    simp only [if_pos rfl]
    set st2 := st1.setStatus 0
      (if st1.currentSkip ∨ (st1.currentEffect = none ∧ (st1.node 0).unowned)
       then Status.dirty else Status.clean) with hst2
    have hupd : interp (f + 1) st1 (.update 0 false) =
        ((match interp f st2 (.execCb 0) with
        | (.error e, st3) => (.error e, st3)
        | (.ok r, st3) =>
          let v := match r with | .val v => v | _ => JSVal.uninit
          let n2 := st3.node 0
          if n2.equals n2.value v = false then
            let st4 := st3.setValue 0 v
            (.ok .unit, markFull st4 ((st4.node 0).consumers.getD []) Status.dirty false)
          else (.ok .unit, st3) : Except RunErr Res × St)) := by
      simp only [interp]
    rw [hupd]
    have hst2dirty : st2 = st1.setStatus 0 Status.dirty := by
      rw [hst2, if_pos hcond]
    have hvalid1 : 0 < st1.nodes.length := by
      rw [hst1, length_uss]
      exact h6
    have hstat2 : (st2.node 0).status = Status.dirty := by
      rw [hst2dirty, St.status_setStatus, if_pos ⟨rfl, hvalid1⟩]
    have hkind2 : (st2.node 0).kind = NKind.computed := by
      rw [hst2dirty, kind_setStatus_node, hst1, node_uss]
      exact h2
    have hunowned2 : (st2.node 0).unowned = true := by
      rw [hst2dirty, unowned_setStatus, hst1, node_uss]
      exact h3
    have hprog2 : (st2.node 0).prog = selfProg := by
      rw [hst2dirty, prog_setStatus, hst1, node_uss]
      exact h4
    have heff2 : st2.currentEffect = none := by
      rw [hst2dirty, currentEffect_setStatus, hst1, currentEffect_uss]
      exact h5
    have hlen2 : 0 < st2.nodes.length := by
      rw [hst2dirty, St.length_setStatus]
      exact hvalid1
    rcases f with _ | f
    · rfl
    have hexec : interp (f + 1) st2 (.execCb 0) =
        ((match interp f
          (St.pushCall { st2 with
                         currentSources := none,
                         currentConsumer := some 0,
                         currentSkip :=
                           st2.currentEffect = none ∧
                             (st2.node 0).kind = NKind.computed ∧
                               (st2.node 0).unowned } 0)
          (.runCb (st2.node 0).prog []) with
        | (.error e, st3) =>
          (.error e, { st3 with
                       currentSources := st2.currentSources,
                       currentConsumer := st2.currentConsumer,
                       currentSkip := st2.currentSkip })
        | (.ok v, st3) =>
          (.ok v, { rewireSources st3 0 with
                    currentSources := st2.currentSources,
                    currentConsumer := st2.currentConsumer,
                    currentSkip := st2.currentSkip }) :
        Except RunErr Res × St)) := by
      simp only [interp]
    rw [hexec]
    set st3 := (St.pushCall { st2 with
                              currentSources := none,
                              currentConsumer := some 0,
                              currentSkip :=
                                st2.currentEffect = none ∧
                                  (st2.node 0).kind = NKind.computed ∧
                                    (st2.node 0).unowned } 0) with hst3
    have hnode3 : ∀ n, st3.node n = st2.node n := fun _ => rfl
    rcases f with _ | f
    · rfl
    rw [hprog2]
    have hrun : interp (f + 1) st3 (.runCb selfProg []) =
        ((match interp f st3 (.getCmd 0) with
        | (.error e, st') => (.error e, st')
        | (.ok r, st') =>
          let v := match r with | .val v => v | _ => JSVal.uninit
          interp f st'
            (.runCb (.ret (fun acc => .ok (acc.getD 0 .uninit))) ([] ++ [v])) :
        Except RunErr Res × St)) := by
      show interp (f + 1) st3 (.runCb (.get 0 (.ret (fun acc => .ok (acc.getD 0 .uninit)))) [])
        = _
      simp only [interp, hnode3 0, hkind2]
    rw [hrun]
    have hrec := ih f (by omega) st3 (by rw [hnode3]; exact hstat2)
      (by rw [hnode3]; exact hkind2) (by rw [hnode3]; exact hunowned2)
      (by rw [hnode3]; exact hprog2) heff2 hlen2
    rcases hp : interp f st3 (.getCmd 0) with ⟨r, stx⟩
    rw [hp] at hrec
    simp only at hrec
    rw [hrec]
    simp

/-- C7, counterexample: the claim says any computed whose callback reads
itself raises a cycle error on the first `get`, leaving the graph
untouched and the status dirty.  Concretely, for a self-reading computed
constructed inside an effect scope, the first `get` *returns normally*
(the inner self-read observes the uninitialized sentinel), no error of any
kind is raised, the status ends `CLEAN` (not dirty), and the node has
acquired itself as a source (the graph is not the pre-call one). -/
theorem c7_counterexample :
    (computedGet 10 c7StOwned 0).1 = .ok (.val .uninit) ∧
      (((computedGet 10 c7StOwned 0).2).node 0).status = Status.clean ∧
      (((computedGet 10 c7StOwned 0).2).node 0).sources = some [0] := by
  refine ⟨by decide, by decide, by decide⟩

/-- C7 (amended): the example implementation performs no cycle detection.
A self-reading computed constructed inside an effect scope completes its
first `get` normally (no cycle error), while a self-reading *unowned*
computed re-enters its own recomputation without bound: at every fuel the
fuel-indexed semantics reports exhaustion, never a raised cycle error —
the host fails with stack overflow rather than the promised cycle error,
and no pre-call state is restored. -/
theorem c7_theorem (fuel : Nat) :
    (computedGet fuel c7StUnowned 0).1 = .error .outOfFuel :=
  c7_aux fuel c7StUnowned (by decide) (by decide) (by decide) rfl rfl (by decide)

/-! ### Frame lemmas for the source-rewiring bookkeeping (claim C3) -/

theorem List.getD_map_eq {α β : Type} (f : α → β) (l : List α) (i : Nat) (d : α) :
    (l.map f).getD i (f d) = f (l.getD i d) := by
  simp only [List.getD, List.get?_map]
  cases l.get? i <;> rfl

theorem map_set_of_eq {α β : Type} (f : α → β) (l : List α) (i : Nat) (x : α) (d : α)
    (h : f x = f (l.getD i d)) : (l.set i x).map f = l.map f := by
  by_cases hv : i < l.length
  · rw [List.map_set, h, ← List.getD_map_eq f l i d,
      List.set_getD_self _ _ _ (by simpa using hv)]
  · rw [List.set_eq_of_length_le (Nat.le_of_not_lt hv)]

theorem Node.core_eq (a b : Node) (h : Node.core a = Node.core b) :
    a = { b with consumers := a.consumers, sources := a.sources } := by
  cases a; cases b
  simp only [Node.core, Node.mk.injEq, true_and, and_true, eq_self_iff_true] at h ⊢
  exact h

/-- States whose node lists agree after `Node.core` agree on every node up
to its edge sets. -/
theorem core_node (σ' σ : St) (h : σ'.nodes.map Node.core = σ.nodes.map Node.core)
    (n : Nat) :
    σ'.node n = { σ.node n with consumers := (σ'.node n).consumers,
                                sources := (σ'.node n).sources } := by
  have hlen : σ'.nodes.length = σ.nodes.length := by
    have := congrArg List.length h
    simpa using this
  by_cases hv : n < σ.nodes.length
  · have hv' : n < σ'.nodes.length := by rw [hlen]; exact hv
    have hmap := congrArg (fun l => l.getD n (Node.core dummyNode)) h
    simp only at hmap
    rw [List.getD_map_eq, List.getD_map_eq] at hmap
    exact Node.core_eq _ _ hmap
  · rw [St.node_invalid σ n (Nat.le_of_not_lt hv),
      St.node_invalid σ' n (by rw [hlen]; exact Nat.le_of_not_lt hv)]

theorem removeConsumerLoop_frame : ∀ (fuel : Nat) (σ : St) (id : Nat) (l : List Nat)
    (ru : Bool), ∃ ns, removeConsumerLoop fuel σ id l ru = { σ with nodes := ns } ∧
      ns.map Node.core = σ.nodes.map Node.core := by
  intro fuel
  induction fuel with
  | zero => exact fun σ id l ru => ⟨σ.nodes, rfl, rfl⟩
  | succ f ih =>
    intro σ id l ru
    cases l with
    | nil => exact ⟨σ.nodes, rfl, rfl⟩
    | cons s rest =>
      show ∃ ns, removeConsumerLoop f _ id rest ru = _ ∧ _
      set m := σ.node s with hm
      have hpair : ∀ σ1 : St, (∃ ns1, σ1 = { σ with nodes := ns1 } ∧
          ns1.map Node.core = σ.nodes.map Node.core) →
          (∃ ns, removeConsumerLoop f σ1 id rest ru = { σ with nodes := ns } ∧
            ns.map Node.core = σ.nodes.map Node.core) := by
        rintro σ1 ⟨ns1, rfl, hcore1⟩
        obtain ⟨ns, hldef, hcore⟩ := ih { σ with nodes := ns1 } id rest ru
        exact ⟨ns, hldef, hcore.trans hcore1⟩
      apply hpair
      -- one step: possibly delete `id` from `s`'s consumer set, possibly
      -- recurse into an unowned computed source
      have hone : ∀ σa : St, (∃ nsa, σa = { σ with nodes := nsa } ∧
            nsa.map Node.core = σ.nodes.map Node.core) →
          ∀ l2, (∃ ns, removeConsumerLoop f σa s l2 true = { σ with nodes := ns } ∧
            ns.map Node.core = σ.nodes.map Node.core) := by
        rintro σa ⟨nsa, rfl, hcorea⟩ l2
        obtain ⟨ns, hldef, hcore⟩ := ih { σ with nodes := nsa } s l2 true
        exact ⟨ns, hldef, hcore.trans hcorea⟩
      have hdel : ∀ (x : Node), Node.core x = Node.core m →
          ∃ nsa, σ.setNode s x = { σ with nodes := nsa } ∧
            nsa.map Node.core = σ.nodes.map Node.core := by
        intro x hx
        refine ⟨σ.nodes.set s x, rfl, ?_⟩
        exact map_set_of_eq Node.core σ.nodes s x dummyNode (by rw [hx]; rfl)
      cases hc : m.consumers with
      | none =>
        simp only [hc]
        split
        · exact hone σ ⟨σ.nodes, rfl, rfl⟩ _
        · exact ⟨σ.nodes, rfl, rfl⟩
      | some cl =>
        simp only [hc]
        split
        · apply hone
          exact hdel _ (by simp [Node.core])
        · exact hdel _ (by simp [Node.core])

theorem removeConsumer_frame (fuel : Nat) (σ : St) (id : Nat) (ru : Bool) :
    ∃ ns, removeConsumer fuel σ id ru = { σ with nodes := ns } ∧
      ns.map Node.core = σ.nodes.map Node.core := by
  unfold removeConsumer
  cases (σ.node id).sources with
  | none => exact ⟨σ.nodes, rfl, rfl⟩
  | some srcs => exact removeConsumerLoop_frame fuel σ id srcs ru

theorem rewireSources_foldl_frame (id : Nat) : ∀ (cs : List Nat) (σ : St) (ns2 : List Node),
    σ.nodes = ns2 →
    ∃ ns, (cs.foldl
        (fun acc s =>
          let m := acc.node s
          match m.consumers with
          | none => acc.setNode s { m with consumers := some [id] }
          | some l =>
            acc.setNode s { m with consumers := some (if id ∈ l then l else l ++ [id]) })
        σ) = { σ with nodes := ns } ∧ ns.map Node.core = ns2.map Node.core := by
  intro cs
  induction cs with
  | nil => exact fun σ ns2 h => ⟨σ.nodes, rfl, by rw [h]⟩
  | cons s rest ihc =>
    intro σ ns2 h
    rw [List.foldl_cons]
    have hone : ∃ ns3, (let m := σ.node s
        match m.consumers with
        | none => σ.setNode s { m with consumers := some [id] }
        | some l =>
          σ.setNode s { m with consumers := some (if id ∈ l then l else l ++ [id]) }) =
        { σ with nodes := ns3 } ∧ ns3.map Node.core = ns2.map Node.core := by
      cases hcon : (σ.node s).consumers with
      | none =>
        simp only [hcon]
        refine ⟨σ.nodes.set s _, rfl, ?_⟩
        rw [← h]
        exact map_set_of_eq Node.core σ.nodes s _ dummyNode (by rfl)
      | some l =>
        simp only [hcon]
        refine ⟨σ.nodes.set s _, rfl, ?_⟩
        rw [← h]
        exact map_set_of_eq Node.core σ.nodes s _ dummyNode (by rfl)
    obtain ⟨ns3, hdef3, hcore3⟩ := hone
    simp only at hdef3
    rw [hdef3]
    obtain ⟨ns, hdef, hcore⟩ := ihc { σ with nodes := ns3 } ns3 rfl
    exact ⟨ns, hdef, hcore.trans hcore3⟩

theorem rewireSources_frame (σ : St) (id : Nat) :
    ∃ ns, rewireSources σ id = { σ with nodes := ns } ∧
      ns.map Node.core = σ.nodes.map Node.core := by
  unfold rewireSources
  split
  · -- currentSources = some cs
    rename_i cs hcs
    obtain ⟨ns1, hdef1, hcore1⟩ := removeConsumer_frame
      (((σ.node id).sources.getD []).length + 1) σ id false
    simp only [hdef1]
    have hstep2 : (St.setNode { σ with nodes := ns1 } id
        { St.node { σ with nodes := ns1 } id with sources := some cs }) =
        { σ with nodes := ns1.set id { St.node { σ with nodes := ns1 } id with
            sources := some cs } } := rfl
    rw [hstep2]
    have hcore2 : (ns1.set id { St.node { σ with nodes := ns1 } id with
        sources := some cs }).map Node.core = σ.nodes.map Node.core := by
      refine (map_set_of_eq Node.core ns1 id _ dummyNode ?_).trans hcore1
      rfl
    split
    · exact ⟨_, rfl, hcore2⟩
    · obtain ⟨ns, hdef, hcore⟩ := rewireSources_foldl_frame id cs
        { σ with nodes := ns1.set id { St.node { σ with nodes := ns1 } id with
            sources := some cs } } _ rfl
      exact ⟨ns, hdef, hcore.trans hcore2⟩
  · -- currentSources = none
    split
    · rename_i srcs hsrcs
      obtain ⟨ns1, hdef1, hcore1⟩ := removeConsumer_frame
        (((σ.node id).sources.getD []).length + 1) σ id false
      simp only [hdef1]
      refine ⟨ns1.set id { St.node { σ with nodes := ns1 } id with sources := some [] },
        rfl, ?_⟩
      refine (map_set_of_eq Node.core ns1 id _ dummyNode ?_).trans hcore1
      rfl
    · exact ⟨σ.nodes, rfl, rfl⟩

/-- Everything `rewireSources` leaves alone: every node keeps its status,
value, kind and comparator, and the whole context and both logs are kept. -/
theorem rewire_facts (σ : St) (id n : Nat) :
    ((rewireSources σ id).node n).status = (σ.node n).status ∧
    ((rewireSources σ id).node n).value = (σ.node n).value ∧
    ((rewireSources σ id).node n).kind = (σ.node n).kind ∧
    ((rewireSources σ id).node n).equals = (σ.node n).equals ∧
    (rewireSources σ id).currentEffect = σ.currentEffect ∧
    (rewireSources σ id).currentUntracking = σ.currentUntracking ∧
    (rewireSources σ id).calls = σ.calls ∧
    (rewireSources σ id).notes = σ.notes := by
  obtain ⟨ns, hdef, hcore⟩ := rewireSources_frame σ id
  have hn := core_node (rewireSources σ id) σ (by rw [hdef]; exact hcore) n
  refine ⟨by rw [hn], by rw [hn], by rw [hn], by rw [hn],
    by rw [hdef], by rw [hdef], by rw [hdef], by rw [hdef]⟩

/-- `updateSignalSources` only ever touches the running source accumulator. -/
theorem uss_shape (σ : St) (id : Nat) :
    ∃ cs, updateSignalSources σ id = { σ with currentSources := cs } := by
  unfold updateSignalSources
  split
  · exact ⟨σ.currentSources, rfl⟩
  split
  · split
    · exact ⟨some [id], rfl⟩
    · split
      · exact ⟨σ.currentSources, rfl⟩
      · rename_i l _ _
        exact ⟨some (l ++ [id]), rfl⟩
  · exact ⟨σ.currentSources, rfl⟩

/-- `evalStateProg` only looks at node kinds and values. -/
theorem evalStateProg_congr (σ' σ : St)
    (h : ∀ n, (σ'.node n).kind = (σ.node n).kind ∧ (σ'.node n).value = (σ.node n).value) :
    ∀ (p : Prog) (acc : List JSVal), evalStateProg σ' p acc = evalStateProg σ p acc := by
  intro p
  induction p with
  | ret f => intro acc; rfl
  | get id k ih =>
    intro acc
    simp only [evalStateProg, (h id).1, (h id).2, ih]
  | set id v k ih => intro acc; rfl

/-- Running a callback that only reads state nodes returns its pure value
and changes nothing but the source accumulator.  Fuel one unit per program
step suffices, with any surplus. -/
theorem runCb_states (p : Prog) : ∀ (acc : List JSVal) (v : JSVal) (σ : St) (g : Nat),
    evalStateProg σ p acc = some v →
    ∃ cs, interp (progLen p + g) σ (.runCb p acc) =
      (.ok (.val v), { σ with currentSources := cs }) := by
  induction p with
  | ret f =>
    intro acc v σ g h
    refine ⟨σ.currentSources, ?_⟩
    simp only [evalStateProg] at h
    cases hf : f acc with
    | ok w =>
      rw [hf] at h
      simp only [Option.some.injEq] at h
      subst h
      simp only [progLen, Nat.add_comm 1 g]
      simp only [interp, hf]
    | error e =>
      rw [hf] at h
      exact absurd h (by simp)
  | get id k ih =>
    intro acc v σ g h
    simp only [evalStateProg] at h
    by_cases hk : (σ.node id).kind = NKind.state
    · rw [if_pos hk] at h
      obtain ⟨cs0, hcs0⟩ := uss_shape σ id
      have hnode : ∀ n, (updateSignalSources σ id).node n = σ.node n := by
        intro n; rw [hcs0]; rfl
      have hcongr := evalStateProg_congr (updateSignalSources σ id) σ
        (fun n => by rw [hnode]; exact ⟨rfl, rfl⟩)
      obtain ⟨cs, hrec⟩ := ih (acc ++ [((updateSignalSources σ id).node id).value]) v
        (updateSignalSources σ id) g (by rw [hcongr, hnode]; exact h)
      refine ⟨cs, ?_⟩
      have harith : progLen (Prog.get id k) + g = (progLen k + g) + 1 := by
        simp only [progLen]; omega
      rw [harith]
      simp only [interp, hk]
      rw [hrec, hcs0]
    · rw [if_neg hk] at h
      exact absurd h (by simp)
  | set id v2 k ih =>
    intro acc v σ g h
    exact absurd h (by simp [evalStateProg])

theorem equals_setStatus (st : St) (i : Nat) (s : Status) (j : Nat) :
    ((st.setStatus i s).node j).equals = (st.node j).equals := by
  rw [St.node_setStatus_frame]

/-- `executeSignalCallback` on a node whose callback only reads state nodes
and returns `vC`: the call succeeds with `vC`, logs exactly one invocation
of the node, and leaves every node's status, value, kind and comparator,
the whole context, and the note log unchanged. -/
theorem execCb_pruned (σ : St) (Cn : Nat) (g : Nat) (vC : JSVal)
    (heval : evalStateProg σ ((σ.node Cn).prog) [] = some vC) :
    ∃ σ', interp (progLen ((σ.node Cn).prog) + g + 1) σ (.execCb Cn) =
        (.ok (.val vC), σ') ∧
      (∀ n, (σ'.node n).status = (σ.node n).status) ∧
      (∀ n, (σ'.node n).value = (σ.node n).value) ∧
      (∀ n, (σ'.node n).kind = (σ.node n).kind) ∧
      (∀ n, (σ'.node n).equals = (σ.node n).equals) ∧
      σ'.currentConsumer = σ.currentConsumer ∧
      σ'.currentEffect = σ.currentEffect ∧
      σ'.currentSources = σ.currentSources ∧
      σ'.currentUntracking = σ.currentUntracking ∧
      σ'.currentSkip = σ.currentSkip ∧
      σ'.calls = σ.calls ++ [Cn] ∧
      σ'.notes = σ.notes := by
  have hev1 : evalStateProg (St.pushCall { σ with currentSources := none, currentConsumer := some Cn, currentSkip := decide (σ.currentEffect = none ∧ (σ.node Cn).kind = NKind.computed ∧ (σ.node Cn).unowned) } Cn) ((σ.node Cn).prog) [] = some vC :=
    (evalStateProg_congr (St.pushCall { σ with currentSources := none, currentConsumer := some Cn, currentSkip := decide (σ.currentEffect = none ∧ (σ.node Cn).kind = NKind.computed ∧ (σ.node Cn).unowned) } Cn) σ (fun n => ⟨rfl, rfl⟩) _ _).trans heval
  obtain ⟨cs, hrun⟩ := runCb_states ((σ.node Cn).prog) [] vC (St.pushCall { σ with currentSources := none, currentConsumer := some Cn, currentSkip := decide (σ.currentEffect = none ∧ (σ.node Cn).kind = NKind.computed ∧ (σ.node Cn).unowned) } Cn) g hev1
  refine ⟨{ rewireSources { St.pushCall { σ with currentSources := none, currentConsumer := some Cn, currentSkip := decide (σ.currentEffect = none ∧ (σ.node Cn).kind = NKind.computed ∧ (σ.node Cn).unowned) } Cn with currentSources := cs } Cn with currentSources := σ.currentSources, currentConsumer := σ.currentConsumer, currentSkip := σ.currentSkip }, ?_, ?_, ?_, ?_, ?_, rfl, ?_, rfl, ?_, rfl, ?_, ?_⟩
  · show ((match interp (progLen ((σ.node Cn).prog) + g) (St.pushCall { σ with currentSources := none, currentConsumer := some Cn, currentSkip := decide (σ.currentEffect = none ∧ (σ.node Cn).kind = NKind.computed ∧ (σ.node Cn).unowned) } Cn) (.runCb ((σ.node Cn).prog) []) with | (.error e, st2) => (.error e, { st2 with currentSources := σ.currentSources, currentConsumer := σ.currentConsumer, currentSkip := σ.currentSkip }) | (.ok v, st2) => (.ok v, { rewireSources st2 Cn with currentSources := σ.currentSources, currentConsumer := σ.currentConsumer, currentSkip := σ.currentSkip })) : Except RunErr Res × St) = _
    rw [hrun]
  · intro n
    exact (rewire_facts { St.pushCall { σ with currentSources := none, currentConsumer := some Cn, currentSkip := decide (σ.currentEffect = none ∧ (σ.node Cn).kind = NKind.computed ∧ (σ.node Cn).unowned) } Cn with currentSources := cs } Cn n).1
  · intro n
    exact (rewire_facts { St.pushCall { σ with currentSources := none, currentConsumer := some Cn, currentSkip := decide (σ.currentEffect = none ∧ (σ.node Cn).kind = NKind.computed ∧ (σ.node Cn).unowned) } Cn with currentSources := cs } Cn n).2.1
  · intro n
    exact (rewire_facts { St.pushCall { σ with currentSources := none, currentConsumer := some Cn, currentSkip := decide (σ.currentEffect = none ∧ (σ.node Cn).kind = NKind.computed ∧ (σ.node Cn).unowned) } Cn with currentSources := cs } Cn n).2.2.1
  · intro n
    exact (rewire_facts { St.pushCall { σ with currentSources := none, currentConsumer := some Cn, currentSkip := decide (σ.currentEffect = none ∧ (σ.node Cn).kind = NKind.computed ∧ (σ.node Cn).unowned) } Cn with currentSources := cs } Cn n).2.2.2.1
  · exact (rewire_facts { St.pushCall { σ with currentSources := none, currentConsumer := some Cn, currentSkip := decide (σ.currentEffect = none ∧ (σ.node Cn).kind = NKind.computed ∧ (σ.node Cn).unowned) } Cn with currentSources := cs } Cn 0).2.2.2.2.1
  · exact (rewire_facts { St.pushCall { σ with currentSources := none, currentConsumer := some Cn, currentSkip := decide (σ.currentEffect = none ∧ (σ.node Cn).kind = NKind.computed ∧ (σ.node Cn).unowned) } Cn with currentSources := cs } Cn 0).2.2.2.2.2.1
  · exact (rewire_facts { St.pushCall { σ with currentSources := none, currentConsumer := some Cn, currentSkip := decide (σ.currentEffect = none ∧ (σ.node Cn).kind = NKind.computed ∧ (σ.node Cn).unowned) } Cn with currentSources := cs } Cn 0).2.2.2.2.2.2.1
  · exact (rewire_facts { St.pushCall { σ with currentSources := none, currentConsumer := some Cn, currentSkip := decide (σ.currentEffect = none ∧ (σ.node Cn).kind = NKind.computed ∧ (σ.node Cn).unowned) } Cn with currentSources := cs } Cn 0).2.2.2.2.2.2.2

/-- `updateComputedSignal` on a node whose callback only reads state nodes
and recomputes a value `eq`-equal to the cached one: the call succeeds,
logs exactly one invocation, stores nothing, marks nothing (no consumer
status changes, no notifications), and leaves every other node's status and
every node's value, kind and comparator, the context and the note log
unchanged. -/
theorem update_pruned (σ : St) (Cn : Nat) (g : Nat) (vC : JSVal) (fn : Bool)
    (heval : evalStateProg σ ((σ.node Cn).prog) [] = some vC)
    (heq : (σ.node Cn).equals (σ.node Cn).value vC = true) :
    ∃ σ', interp (progLen ((σ.node Cn).prog) + g + 2) σ (.update Cn fn) =
        (.ok .unit, σ') ∧
      (∀ n, n ≠ Cn → (σ'.node n).status = (σ.node n).status) ∧
      (∀ n, (σ'.node n).value = (σ.node n).value) ∧
      (∀ n, (σ'.node n).kind = (σ.node n).kind) ∧
      (∀ n, (σ'.node n).equals = (σ.node n).equals) ∧
      σ'.currentConsumer = σ.currentConsumer ∧
      σ'.currentEffect = σ.currentEffect ∧
      σ'.currentSources = σ.currentSources ∧
      σ'.currentUntracking = σ.currentUntracking ∧
      σ'.currentSkip = σ.currentSkip ∧
      σ'.calls = σ.calls ++ [Cn] ∧
      σ'.notes = σ.notes := by
  have hpe : ((σ.setStatus Cn (if σ.currentSkip ∨ (σ.currentEffect = none ∧ (σ.node Cn).unowned) then Status.dirty else Status.clean)).node Cn).prog = (σ.node Cn).prog := prog_setStatus σ Cn _ Cn
  have hev1 : evalStateProg (σ.setStatus Cn (if σ.currentSkip ∨ (σ.currentEffect = none ∧ (σ.node Cn).unowned) then Status.dirty else Status.clean)) (((σ.setStatus Cn (if σ.currentSkip ∨ (σ.currentEffect = none ∧ (σ.node Cn).unowned) then Status.dirty else Status.clean)).node Cn).prog) [] = some vC := by
    rw [hpe, evalStateProg_congr (σ.setStatus Cn (if σ.currentSkip ∨ (σ.currentEffect = none ∧ (σ.node Cn).unowned) then Status.dirty else Status.clean)) σ
      (fun n => ⟨kind_setStatus σ Cn _ n, value_setStatus σ Cn _ n⟩)]
    exact heval
  obtain ⟨σ2, hexec, hS, hV, hK, hE, hCC, hCE, hCS, hCU, hCK, hCa, hNo⟩ :=
    execCb_pruned (σ.setStatus Cn (if σ.currentSkip ∨ (σ.currentEffect = none ∧ (σ.node Cn).unowned) then Status.dirty else Status.clean)) Cn g vC hev1
  rw [hpe] at hexec
  refine ⟨σ2, ?_, ?_, ?_, ?_, ?_, hCC, hCE, hCS, hCU, hCK, hCa, hNo⟩
  · show ((match interp (progLen ((σ.node Cn).prog) + g + 1) (σ.setStatus Cn (if σ.currentSkip ∨ (σ.currentEffect = none ∧ (σ.node Cn).unowned) then Status.dirty else Status.clean)) (.execCb Cn) with | (.error e, st2) => (.error e, st2) | (.ok r, st2) => (if (st2.node Cn).equals (st2.node Cn).value (match r with | Res.val v => v | _ => JSVal.uninit) = false then (.ok .unit, markFull (st2.setValue Cn (match r with | Res.val v => v | _ => JSVal.uninit)) (((st2.setValue Cn (match r with | Res.val v => v | _ => JSVal.uninit)).node Cn).consumers.getD []) Status.dirty fn) else (.ok .unit, st2))) : Except RunErr Res × St) = _
    rw [hexec]
    have hcond : (σ2.node Cn).equals (σ2.node Cn).value vC = true := by
      rw [hE Cn, hV Cn, equals_setStatus, value_setStatus]
      exact heq
    simp only [hcond]
    simp
  · intro n hn
    refine (hS n).trans ?_
    rw [St.status_setStatus, if_neg]
    rintro ⟨h1, _⟩
    exact hn h1.symm
  · intro n
    exact (hV n).trans (value_setStatus σ Cn _ n)
  · intro n
    exact (hK n).trans (kind_setStatus σ Cn _ n)
  · intro n
    exact (hE n).trans (equals_setStatus σ Cn _ n)

/-- The `isSignalDirty` source walk over a maybe-dirty computed `D` whose
sources are clean states except possibly one dirty computed `Cn` that
recomputes (reading only state nodes) to an `eq`-equal value: the walk
reports "not dirty", invokes only `Cn`'s callback (once, and not at all if
`Cn` is absent), changes no node's value, keeps `D` maybe-dirty, and sends
no notifications. -/
theorem walk_pruned (D Cn : Nat) (hDC : D ≠ Cn) (P : Nat) :
    ∀ (srcs : List Nat) (g : Nat) (σ : St),
    (σ.node D).status = Status.maybeDirty →
    (∀ s, s ∈ srcs → s ≠ Cn →
      (σ.node s).kind = NKind.state ∧ (σ.node s).status = Status.clean) →
    (Cn ∈ srcs → (σ.node Cn).kind = NKind.computed ∧
      (σ.node Cn).status = Status.dirty ∧ P = progLen ((σ.node Cn).prog) ∧
      ∃ vC, evalStateProg σ ((σ.node Cn).prog) [] = some vC ∧
        (σ.node Cn).equals (σ.node Cn).value vC = true) →
    srcs.count Cn ≤ 1 →
    ∃ σf, interp (3 * srcs.length + P + g + 3) σ (.walk D srcs) =
        (.ok (.bool false), σf) ∧
      σf.calls = σ.calls ++ (if Cn ∈ srcs then [Cn] else []) ∧
      (∀ n, (σf.node n).value = (σ.node n).value) ∧
      (σf.node D).status = Status.maybeDirty ∧
      σf.notes = σ.notes := by
  intro srcs
  induction srcs with
  | nil =>
    intro g σ hmd _ _ _
    refine ⟨σ, ?_, by simp, fun n => rfl, hmd, rfl⟩
    have harith : 3 * ([] : List Nat).length + P + g + 3 = (P + g + 2) + 1 := by
      simp only [List.length_nil]; omega
    rw [harith]
    simp only [interp]
  | cons s rest ih =>
    intro g σ hmd hclean hCn hcount
    by_cases hsC : s = Cn
    · subst hsC
      have hmem : s ∈ s :: rest := List.mem_cons_self s rest
      obtain ⟨hkC, hstC, hP, vC, hev, heqC⟩ := hCn hmem
      have hnot : s ∉ rest := by
        have h1 := hcount
        rw [List.count_cons_self] at h1
        exact List.count_eq_zero.mp (by omega)
      obtain ⟨σ2, hupd, hS, hV, hK, hE, hCC, hCE, hCS, hCU, hCK, hCa, hNo⟩ :=
        update_pruned σ s (3 * rest.length + g + 2) vC true hev heqC
      have hupd2 : interp (3 * rest.length + P + g + 4) σ (.update s true) =
          (.ok .unit, σ2) := by
        have harithU : 3 * rest.length + P + g + 4 =
            progLen ((σ.node s).prog) + (3 * rest.length + g + 2) + 2 := by
          rw [← hP]; omega
        rw [harithU]
        exact hupd
      have harith1 : 3 * (s :: rest).length + P + g + 3 =
          (3 * rest.length + P + g + 5) + 1 := by
        simp only [List.length_cons]; omega
      rw [harith1]
      have hstep1 : ∀ w, interp (w + 1) σ (.walk D (s :: rest)) =
          interp w σ (.recheck D s rest) := by
        intro w
        simp only [interp]
        rw [if_neg (fun h => by rw [hkC] at h; exact NKind.noConfusion h)]
        rw [if_neg (fun h => by rw [hstC] at h; exact Status.noConfusion h)]
      rw [hstep1]
      have harith2 : 3 * rest.length + P + g + 5 = (3 * rest.length + P + g + 4) + 1 := by
        omega
      rw [harith2]
      have hs2D : (σ2.node D).status = Status.maybeDirty := (hS D hDC).trans hmd
      have hrecheck : ∀ w, interp (w + 1) σ (.recheck D s rest) =
          (match interp w σ (.update s true) with
           | (.error e, st2) => ((.error e : Except RunErr Res), st2)
           | (.ok r, st2) =>
             if (st2.node D).status = Status.dirty then
               ((.ok (.bool true) : Except RunErr Res), st2)
             else interp w st2 (.walk D rest)) := by
        intro w
        simp only [interp]
        rw [if_pos hstC]
      rw [hrecheck, hupd2]
      have hstep2 : (match ((.ok Res.unit : Except RunErr Res), σ2) with
           | (.error e, st2) => ((.error e : Except RunErr Res), st2)
           | (.ok r, st2) =>
             if (st2.node D).status = Status.dirty then
               ((.ok (.bool true) : Except RunErr Res), st2)
             else interp (3 * rest.length + P + g + 4) st2 (.walk D rest)) =
          interp (3 * rest.length + P + g + 4) σ2 (.walk D rest) := by
        simp only [hs2D]
        rw [if_neg (fun h => Status.noConfusion h)]
      rw [hstep2]
      obtain ⟨σf, heqf, hcallsf, hvalf, hstDf, hnotesf⟩ := ih (g + 1) σ2
        hs2D
        (fun t ht htne => ⟨(hK t).trans (hclean t (List.mem_cons_of_mem s ht) htne).1,
          (hS t htne).trans (hclean t (List.mem_cons_of_mem s ht) htne).2⟩)
        (fun hm => absurd hm hnot)
        (by rw [List.count_eq_zero.mpr hnot]; omega)
      refine ⟨σf, ?_, ?_, fun n => (hvalf n).trans (hV n), hstDf, hnotesf.trans hNo⟩
      · have harith3 : 3 * rest.length + P + g + 4 = 3 * rest.length + P + (g + 1) + 3 := by
          omega
        rw [harith3]
        exact heqf
      · rw [hcallsf, if_neg hnot, if_pos hmem, hCa]
        simp
    · have hks : (σ.node s).kind = NKind.state :=
        (hclean s (List.mem_cons_self s rest) hsC).1
      have hss : (σ.node s).status = Status.clean :=
        (hclean s (List.mem_cons_self s rest) hsC).2
      have harith1 : 3 * (s :: rest).length + P + g + 3 =
          (3 * rest.length + P + (g + 2) + 3) + 1 := by
        simp only [List.length_cons]; omega
      rw [harith1]
      have hstep : ∀ w, interp (w + 1) σ (.walk D (s :: rest)) =
          interp w σ (.walk D rest) := by
        intro w
        simp only [interp]
        rw [if_pos hks]
        rw [if_neg (fun h => by rw [hss] at h; exact Status.noConfusion h)]
      rw [hstep]
      have hmemiff : (Cn ∈ s :: rest) ↔ (Cn ∈ rest) := by
        constructor
        · intro h
          rcases List.mem_cons.mp h with h1 | h1
          · exact absurd h1.symm hsC
          · exact h1
        · exact List.mem_cons_of_mem s
      obtain ⟨σf, heqf, hcallsf, hvalf, hstDf, hnotesf⟩ := ih (g + 2) σ
        hmd
        (fun t ht htne => hclean t (List.mem_cons_of_mem s ht) htne)
        (fun hm => hCn (hmemiff.mpr hm))
        (by
          have := hcount
          rw [List.count_cons] at this
          omega)
      refine ⟨σf, heqf, ?_, hvalf, hstDf, hnotesf⟩
      rw [hcallsf]
      by_cases hm : Cn ∈ rest
      · rw [if_pos hm, if_pos (hmemiff.mpr hm)]
      · rw [if_neg hm, if_neg (fun h => hm (hmemiff.mp h))]

/-- `updateSignalSources` at top level (no current consumer) is the
identity. -/
theorem uss_noconsumer (st : St) (id : Nat) (h : st.currentConsumer = none) :
    updateSignalSources st id = st := by
  unfold updateSignalSources
  split
  · rfl
  split
  · rename_i hcond
    exact absurd h hcond.1
  · rfl

/-- C3: pruning.  Let `D` be a computed direct sink of the computed `Cn`,
left maybe-dirty by an earlier propagation, whose other sources are all
clean states, and let `Cn` be dirty with a callback that only reads state
nodes and recomputes a value `eq`-equal to its cached one.  Then a
top-level `D.get()` returns `D`'s cached value without re-invoking `D`'s
callback: the only callback invocation logged is `Cn`'s, and no effect is
notified. -/
theorem c3_theorem (st : St) (D Cn : Nat) (srcs : List Nat) (g : Nat) (vC : JSVal)
    (hDC : D ≠ Cn)
    (hcons : st.currentConsumer = none)
    (hkD : (st.node D).kind = NKind.computed)
    (hmd : (st.node D).status = Status.maybeDirty)
    (hsrc : (st.node D).sources = some srcs)
    (hmem : Cn ∈ srcs)
    (hclean : ∀ s, s ∈ srcs → s ≠ Cn →
      (st.node s).kind = NKind.state ∧ (st.node s).status = Status.clean)
    (hkC : (st.node Cn).kind = NKind.computed)
    (hsC : (st.node Cn).status = Status.dirty)
    (hev : evalStateProg st ((st.node Cn).prog) [] = some vC)
    (heq : (st.node Cn).equals (st.node Cn).value vC = true)
    (hcount : srcs.count Cn ≤ 1) :
    ∃ stf, computedGet (3 * srcs.length + progLen ((st.node Cn).prog) + g + 5) st D =
        (.ok (.val ((st.node D).value)), stf) ∧
      stf.calls = st.calls ++ [Cn] ∧
      (∀ n, (stf.node n).value = (st.node n).value) ∧
      stf.notes = st.notes := by
  have hgetstep : ∀ w, interp (w + 1) st (.getCmd D) =
      (match interp w st (.isDirty D) with
       | (.error e, st2) => ((.error e : Except RunErr Res), st2)
       | (.ok r, st2) =>
         if r = Res.bool true then
           (match interp w st2 (.update D false) with
            | (.error e, st3) => ((.error e : Except RunErr Res), st3)
            | (.ok _, st3) => (.ok (.val ((st3.node D).value)), st3))
         else (.ok (.val ((st2.node D).value)), st2)) := by
    intro w
    simp only [interp]
    rw [uss_noconsumer st D hcons]
  have hisd : ∀ w, interp (w + 1) st (.isDirty D) = interp w st (.walk D srcs) := by
    intro w
    simp only [interp]
    rw [hmd]
    rw [if_neg (fun h => Status.noConfusion h), if_pos rfl, hsrc]
  obtain ⟨σf, hwalk, hcalls, hvals, hstD, hnotes⟩ := walk_pruned D Cn hDC
    (progLen ((st.node Cn).prog)) srcs g st hmd hclean
    (fun _ => ⟨hkC, hsC, rfl, vC, hev, heq⟩) hcount
  refine ⟨σf, ?_, by rw [hcalls, if_pos hmem], hvals, hnotes⟩
  show interp (3 * srcs.length + progLen ((st.node Cn).prog) + g + 5) st (.getCmd D) = _
  have harith : 3 * srcs.length + progLen ((st.node Cn).prog) + g + 5 = ((3 * srcs.length + progLen ((st.node Cn).prog) + g + 3) + 1) + 1 := by omega
  rw [harith, hgetstep, hisd, hwalk]
  have hred : ∀ w, (match ((.ok (Res.bool false) : Except RunErr Res), σf) with
       | (.error e, st2) => ((.error e : Except RunErr Res), st2)
       | (.ok r, st2) =>
         if r = Res.bool true then
           (match interp w st2 (.update D false) with
            | (.error e, st3) => ((.error e : Except RunErr Res), st3)
            | (.ok _, st3) => (.ok (.val ((st3.node D).value)), st3))
         else (.ok (.val ((st2.node D).value)), st2)) =
      ((.ok (.val ((σf.node D).value)) : Except RunErr Res), σf) := fun w => rfl
  rw [hred, hvals D]

/-- C3 witness: at the concrete pruning graph `c3St`, reading the
maybe-dirty sink (node 2) returns its cached `42`, the call log records
only node 1's recomputation, and nothing is notified. -/
theorem c3_theorem_witness :
    (2 : Nat) ≠ 1 ∧ c3St.currentConsumer = none ∧
    (∃ stf, computedGet (3 * ([0, 1] : List Nat).length +
        progLen ((c3St.node 1).prog) + 0 + 5) c3St 2 =
        (.ok (.val ((c3St.node 2).value)), stf) ∧
      stf.calls = c3St.calls ++ [1] ∧
      (∀ n, (stf.node n).value = (c3St.node n).value) ∧
      stf.notes = c3St.notes) :=
  ⟨by decide, rfl,
    c3_theorem c3St 2 1 [0, 1] 0 (.int 5) (by decide) rfl (by decide) (by decide)
      rfl (by decide) (by decide) (by decide) (by decide) rfl rfl (by decide)⟩

/-- C4: while any watcher's notify callback is executing (the
notification-phase flag is set), `State.get`, `State.set` and
`Computed.get` all throw and leave the graph unchanged. -/
theorem c4_theorem (st : Poly.PSt) (i j k : Nat) (v : JSVal)
    (h : st.inNotificationPhase = true) :
    (∃ e, Poly.stateGet st i = (.error e, st)) ∧
    (∃ e, Poly.stateSet st j v = (.error e, st)) ∧
    (∃ e, Poly.computedGet st k = (.error e, st)) := by
  unfold Poly.stateGet Poly.stateSet Poly.computedGet Poly.signalGetFn
  rw [h]
  exact ⟨⟨_, rfl⟩, ⟨_, rfl⟩, ⟨_, rfl⟩⟩

/-- C4 witness: at a concrete arena inside the notification phase, all
three operations fail and return the state unchanged. -/
theorem c4_theorem_witness :
    Poly.c4St.inNotificationPhase = true ∧
    ((∃ e, Poly.stateGet Poly.c4St 0 = (.error e, Poly.c4St)) ∧
     (∃ e, Poly.stateSet Poly.c4St 0 (.int 9) = (.error e, Poly.c4St)) ∧
     (∃ e, Poly.computedGet Poly.c4St 1 = (.error e, Poly.c4St))) :=
  ⟨rfl, c4_theorem Poly.c4St 0 0 1 (.int 9) rfl⟩

/-- C6: `Watcher.getPending()` returns exactly the watched producers
whose spec status is dirty or checked, in producer order, given the
correspondence between the graph core's boolean dirty flag and the
spec's three-colour status. -/
theorem c6_theorem (pn : List Poly.CNode)
    (hcorr : ∀ n ∈ pn, n.dirty = Poly.statusPending n.status) :
    Poly.getPending pn =
      (pn.filter (fun n => Poly.statusPending n.status)).map (fun n => n.id) := by
  unfold Poly.getPending
  induction pn with
  | nil => rfl
  | cons n rest ih =>
    have hn := hcorr n (List.mem_cons_self n rest)
    have hrest := fun m hm => hcorr m (List.mem_cons_of_mem n hm)
    simp only [List.filter_cons, hn]
    cases hp : Poly.statusPending n.status with
    | true => simp [ih hrest]
    | false => simp [ih hrest]

/-- C6 witness: on a concrete watched list, `getPending` returns the
dirty and checked nodes, in order. -/
theorem c6_theorem_witness :
    (∀ n ∈ Poly.c6List, n.dirty = Poly.statusPending n.status) ∧
    Poly.getPending Poly.c6List =
      (Poly.c6List.filter (fun n => Poly.statusPending n.status)).map
        (fun n => n.id) :=
  ⟨by decide, c6_theorem Poly.c6List (by decide)⟩

/-- C9, counterexample: at `Poly.c9St` (watcher watching producers 0, 1,
2 with a perfect bidirectional mirror), `unwatch(1, 2)` leaves the
bookkeeping inconsistent: the watcher's `producerNode` still contains the
removed producer 2 (at index 1), yet producer 2's `liveConsumerNode` is
empty — the remaining index does not mirror back to the watcher — and
`nextProducerIndex` is 1 while two producers are listed. -/
theorem c9_counterexample :
    (Poly.unwatch Poly.c9St [1, 2]).watcher.producerNode = [0, 2] ∧
    (Poly.getProducer (Poly.unwatch Poly.c9St [1, 2]) 2).liveConsumerNode = [] ∧
    (Poly.unwatch Poly.c9St [1, 2]).watcher.nextProducerIndex = 1 := by
  decide

theorem Poly.getProducer_set_self (st : Poly.USt) (p : Nat) (pr : Poly.Producer)
    (h : p < st.producers.length) :
    Poly.getProducer (Poly.setProducer st p pr) p = pr := by
  simp only [Poly.getProducer, Poly.setProducer, List.getD]
  rw [List.get?_set_eq_of_lt _ h]
  rfl

theorem Poly.getProducer_set_ne (st : Poly.USt) (p q : Nat) (pr : Poly.Producer)
    (h : p ≠ q) :
    Poly.getProducer (Poly.setProducer st p pr) q = Poly.getProducer st q := by
  simp only [Poly.getProducer, Poly.setProducer, List.getD]
  rw [List.get?_set_ne _ _ h]

theorem Poly.watcher_setProducer (st : Poly.USt) (p : Nat) (pr : Poly.Producer) :
    (Poly.setProducer st p pr).watcher = st.watcher := rfl

theorem Poly.length_setProducer (st : Poly.USt) (p : Nat) (pr : Poly.Producer) :
    (Poly.setProducer st p pr).producers.length = st.producers.length := by
  simp [Poly.setProducer]

/-- Splitting the first `unwatch` pass across an index-list append. -/
theorem Poly.unwatchLoop1_append (signals : List Nat) :
    ∀ (L1 L2 : List Nat) (st : Poly.USt) (acc : List Nat),
    Poly.unwatchLoop1 signals (L1 ++ L2) st acc =
      Poly.unwatchLoop1 signals L2 (Poly.unwatchLoop1 signals L1 st acc).1
        (Poly.unwatchLoop1 signals L1 st acc).2 := by
  intro L1
  induction L1 with
  | nil => intro L2 st acc; rfl
  | cons i rest ih =>
    intro L2 st acc
    show Poly.unwatchLoop1 signals ((i :: rest) ++ L2) st acc = _
    rw [List.cons_append]
    by_cases hm : st.watcher.producerNode.getD i 0 ∈ signals
    · simp only [Poly.unwatchLoop1, if_pos hm]
      exact ih L2 _ _
    · simp only [Poly.unwatchLoop1, if_neg hm]
      exact ih L2 st acc

/-- The first pass skips every index whose producer is not removed. -/
theorem Poly.unwatchLoop1_skip (signals : List Nat) :
    ∀ (L : List Nat) (st : Poly.USt) (acc : List Nat),
    (∀ i ∈ L, st.watcher.producerNode.getD i 0 ∉ signals) →
    Poly.unwatchLoop1 signals L st acc = (st, acc) := by
  intro L
  induction L with
  | nil => intro st acc _; rfl
  | cons i rest ih =>
    intro st acc h
    have hi := h i (List.mem_cons_self i rest)
    simp only [Poly.unwatchLoop1, if_neg hi]
    exact ih st acc (fun j hj => h j (List.mem_cons_of_mem i hj))

theorem Poly.jsSet_lt (l : List Nat) (i : Nat) (v : Nat) (h : i < l.length) :
    Poly.jsSet l i v = l.set i v := if_pos h

theorem Poly.prlcai_singleton (st : Poly.USt) (p k : Nat)
    (hpr : Poly.getProducer st p =
      { liveConsumerNode := [0], liveConsumerIndexOfThis := [k] }) :
    Poly.prlcai st p 0 =
      Poly.setProducer st p { liveConsumerNode := [], liveConsumerIndexOfThis := [] } := by
  simp only [Poly.prlcai, hpr]
  rfl

theorem Poly.nodup_of_getD_inj (l : List Nat)
    (h : ∀ i j, i < l.length → j < l.length → l.getD i 0 = l.getD j 0 → i = j) :
    l.Nodup := by
  rw [List.nodup_iff_injective_get]
  intro a b hab
  apply Fin.ext
  refine h a b a.isLt b.isLt ?_
  rw [List.getD_eq_getElem _ _ a.isLt, List.getD_eq_getElem _ _ b.isLt]
  exact hab

/-- The first `unwatch` pass, removing a single watched producer: only
index `k` matches; its producer's live-consumer arrays are emptied. -/
theorem Poly.pass1_single (st : Poly.USt) (k : Nat)
    (hk : k < st.watcher.producerNode.length)
    (hnd : st.watcher.producerNode.Nodup)
    (hpio : st.watcher.producerIndexOfThis =
      List.replicate st.watcher.producerNode.length 0)
    (hpr : Poly.getProducer st (st.watcher.producerNode.getD k 0) =
      { liveConsumerNode := [0], liveConsumerIndexOfThis := [k] }) :
    Poly.unwatchLoop1 [st.watcher.producerNode.getD k 0]
        (List.range st.watcher.producerNode.length) st [] =
      (Poly.setProducer st (st.watcher.producerNode.getD k 0)
        { liveConsumerNode := [], liveConsumerIndexOfThis := [] }, [k]) := by
  have hne : ∀ i, i < st.watcher.producerNode.length → i ≠ k →
      st.watcher.producerNode.getD i 0 ≠ st.watcher.producerNode.getD k 0 := by
    intro i hi hik h
    rw [List.getD_eq_getElem _ _ hi, List.getD_eq_getElem _ _ hk] at h
    exact hik (hnd.getElem_inj_iff.mp h)
  have hsplit : List.range st.watcher.producerNode.length =
      List.range k ++ (k :: List.range' (k + 1)
        (st.watcher.producerNode.length - k - 1)) := by
    have h1 := (List.range'_append 0 k (st.watcher.producerNode.length - k) 1).symm
    rw [show 0 + 1 * k = k from by omega] at h1
    rw [show st.watcher.producerNode.length - k + k =
      st.watcher.producerNode.length from by omega] at h1
    rw [show st.watcher.producerNode.length - k =
        (st.watcher.producerNode.length - k - 1) + 1 from by omega,
      List.range'_succ] at h1
    rw [List.range_eq_range', h1, ← List.range_eq_range']
  rw [hsplit, Poly.unwatchLoop1_append]
  rw [Poly.unwatchLoop1_skip [st.watcher.producerNode.getD k 0] (List.range k) st [] (by
    intro i hi
    rw [List.mem_singleton]
    have hik := List.mem_range.mp hi
    exact hne i (Nat.lt_trans hik hk) (Nat.ne_of_lt hik))]
  show Poly.unwatchLoop1 [st.watcher.producerNode.getD k 0]
    (k :: List.range' (k + 1) (st.watcher.producerNode.length - k - 1)) st [] = _
  simp only [Poly.unwatchLoop1]
  rw [if_pos (List.mem_singleton.mpr rfl)]
  have hpio0 : st.watcher.producerIndexOfThis.getD k 0 = 0 := by
    rw [hpio, List.getD_eq_getElem _ _ (by rw [List.length_replicate]; exact hk),
      List.getElem_replicate]
  rw [hpio0, Poly.prlcai_singleton st _ k hpr]
  exact Poly.unwatchLoop1_skip _ _ _ _ (by
    intro i hi
    rw [List.mem_singleton, Poly.watcher_setProducer]
    obtain ⟨hlo, hhi⟩ := List.mem_range'_1.mp hi
    exact hne i (by omega) (by omega))

/-- C9 (amended): `unwatch` of a single watched signal keeps the
bookkeeping consistent.  Starting from well-formed single-watcher
bookkeeping, removing the producer watched at index `k` empties that
producer's live-consumer arrays, removes it from the watcher's
`producerNode` (which shrinks by one), and re-establishes the
bidirectional edge-index mirror (`Poly.WF`) on what remains. -/
theorem c9_theorem (st : Poly.USt) (k : Nat) (hWF : Poly.WF st)
    (hk : k < st.watcher.producerNode.length) :
    (Poly.getProducer (Poly.unwatch st [st.watcher.producerNode.getD k 0])
        (st.watcher.producerNode.getD k 0)).liveConsumerNode = [] ∧
    (Poly.unwatch st [st.watcher.producerNode.getD k 0]).watcher.producerNode.length =
      st.watcher.producerNode.length - 1 ∧
    st.watcher.producerNode.getD k 0 ∉
      (Poly.unwatch st [st.watcher.producerNode.getD k 0]).watcher.producerNode ∧
    Poly.WF (Poly.unwatch st [st.watcher.producerNode.getD k 0]) := by
  obtain ⟨⟨pnL, pioL, npi⟩, prods⟩ := st
  obtain ⟨hpio, hnext, hnd, hmir⟩ := hWF
  simp only at hpio hnext hnd hmir hk ⊢
  subst hpio
  subst hnext
  -- abbreviations
  have hlenpos : 0 < pnL.length := Nat.lt_of_le_of_lt (Nat.zero_le k) hk
  have hl1 : pnL.length - 1 < pnL.length := by omega
  have hsf := hmir k (List.mem_range.mpr hk)
  have hqf := hmir (pnL.length - 1) (List.mem_range.mpr hl1)
  -- the two getD-distinctness workhorses
  have hinj : ∀ i j, i < pnL.length → j < pnL.length →
      pnL.getD i 0 = pnL.getD j 0 → i = j := by
    intro i j hi hj h
    rw [List.getD_eq_getElem _ _ hi, List.getD_eq_getElem _ _ hj] at h
    exact hnd.getElem_inj_iff.mp h
  -- pass 1
  have hpass : Poly.unwatch { watcher := { producerNode := pnL, producerIndexOfThis := List.replicate pnL.length 0, nextProducerIndex := pnL.length }, producers := prods } [pnL.getD k 0] = Poly.unwatchLoop2 [k] (Poly.setProducer { watcher := { producerNode := pnL, producerIndexOfThis := List.replicate pnL.length 0, nextProducerIndex := pnL.length }, producers := prods } (pnL.getD k 0) { liveConsumerNode := [], liveConsumerIndexOfThis := [] }) := by
    unfold Poly.unwatch
    rw [Poly.pass1_single _ k hk hnd rfl hsf.2]
  rw [hpass]
  -- pass 2 (shared pieces)
  have hjs1 : Poly.jsSet pnL k (pnL.getD (pnL.length - 1) 0) =
      pnL.set k (pnL.getD (pnL.length - 1) 0) := Poly.jsSet_lt _ _ _ hk
  have hjs2 : Poly.jsSet (List.replicate pnL.length 0) k
        ((List.replicate pnL.length (0 : Nat)).getD (pnL.length - 1) 0) =
      List.replicate pnL.length 0 := by
    rw [List.getD_eq_getElem _ _ (by rw [List.length_replicate]; exact hl1),
      List.getElem_replicate,
      Poly.jsSet_lt _ _ _ (by rw [List.length_replicate]; exact hk)]
    have h0 := List.set_getD_self (List.replicate pnL.length (0 : Nat)) k 0
      (by rw [List.length_replicate]; exact hk)
    rwa [List.getD_eq_getElem _ _ (by rw [List.length_replicate]; exact hk),
      List.getElem_replicate] at h0
  have hdrop : (List.replicate pnL.length (0 : Nat)).dropLast =
      List.replicate (pnL.length - 1) 0 := by
    rw [show pnL.length = (pnL.length - 1) + 1 from by omega, List.replicate_succ',
      List.dropLast_concat, Nat.add_sub_cancel]
  have hpn2len : ((pnL.set k (pnL.getD (pnL.length - 1) 0)).dropLast).length =
      pnL.length - 1 := by
    rw [List.length_dropLast, List.length_set]
  -- getD characterization of the compacted producer list
  have hchar : ∀ i, i < pnL.length - 1 →
      ((pnL.set k (pnL.getD (pnL.length - 1) 0)).dropLast).getD i 0 =
      if k = i then pnL.getD (pnL.length - 1) 0 else pnL.getD i 0 := by
    intro i hi
    rw [List.getD_eq_getElem _ _ (by rw [hpn2len]; exact hi),
      List.getElem_dropLast, List.getElem_set]
    split
    · rfl
    · exact (List.getD_eq_getElem _ _ (by omega)).symm
  have hplen1 : ((Poly.setProducer { watcher := { producerNode := pnL, producerIndexOfThis := List.replicate pnL.length 0, nextProducerIndex := pnL.length }, producers := prods } (pnL.getD k 0) { liveConsumerNode := [], liveConsumerIndexOfThis := [] })).producers.length = prods.length := by
    rw [Poly.length_setProducer]
  rcases Nat.lt_or_ge k (pnL.length - 1) with hcase | hcase
  · -- a producer is really moved into the freed slot
    have hsq : pnL.getD k 0 ≠ (pnL.getD (pnL.length - 1) 0) := fun h => by
      have := hinj k (pnL.length - 1) hk hl1 h
      omega
    have hidxC : (List.replicate (pnL.length - 1) (0 : Nat)).getD k 0 = 0 := by
      rw [List.getD_eq_getElem _ _ (by rw [List.length_replicate]; exact hcase),
        List.getElem_replicate]
    have hp2k : (((pnL.set k (pnL.getD (pnL.length - 1) 0)).dropLast)).getD k 0 = (pnL.getD (pnL.length - 1) 0) := by
      rw [hchar k hcase, if_pos rfl]
    have hgpq : Poly.getProducer { (Poly.setProducer { watcher := { producerNode := pnL, producerIndexOfThis := List.replicate pnL.length 0, nextProducerIndex := pnL.length }, producers := prods } (pnL.getD k 0) { liveConsumerNode := [], liveConsumerIndexOfThis := [] }) with watcher := { producerNode := ((pnL.set k (pnL.getD (pnL.length - 1) 0)).dropLast), producerIndexOfThis := List.replicate (pnL.length - 1) 0, nextProducerIndex := pnL.length - 1 } } (pnL.getD (pnL.length - 1) 0) = { liveConsumerNode := [0], liveConsumerIndexOfThis := [pnL.length - 1] } := by
      show Poly.getProducer (Poly.setProducer { watcher := { producerNode := pnL, producerIndexOfThis := List.replicate pnL.length 0, nextProducerIndex := pnL.length }, producers := prods } (pnL.getD k 0) { liveConsumerNode := [], liveConsumerIndexOfThis := [] }) (pnL.getD (pnL.length - 1) 0) = _
      rw [Poly.getProducer_set_ne _ _ _ _ hsq]
      exact hqf.2
    have hl2 : Poly.unwatchLoop2 [k] (Poly.setProducer { watcher := { producerNode := pnL, producerIndexOfThis := List.replicate pnL.length 0, nextProducerIndex := pnL.length }, producers := prods } (pnL.getD k 0) { liveConsumerNode := [], liveConsumerIndexOfThis := [] }) =
        Poly.setProducer { (Poly.setProducer { watcher := { producerNode := pnL, producerIndexOfThis := List.replicate pnL.length 0, nextProducerIndex := pnL.length }, producers := prods } (pnL.getD k 0) { liveConsumerNode := [], liveConsumerIndexOfThis := [] }) with watcher := { producerNode := ((pnL.set k (pnL.getD (pnL.length - 1) 0)).dropLast), producerIndexOfThis := List.replicate (pnL.length - 1) 0, nextProducerIndex := pnL.length - 1 } } (pnL.getD (pnL.length - 1) 0) { liveConsumerNode := [0], liveConsumerIndexOfThis := [k] } := by
      simp only [Poly.unwatchLoop2, Poly.watcher_setProducer, hjs1, hjs2, hdrop]
      rw [if_pos (by rw [hpn2len]; exact hcase)]
      rw [hidxC, hp2k, hgpq]
      rfl
    rw [hl2]
    simp only [Poly.watcher_setProducer]
    have hgps : Poly.getProducer (Poly.setProducer { (Poly.setProducer { watcher := { producerNode := pnL, producerIndexOfThis := List.replicate pnL.length 0, nextProducerIndex := pnL.length }, producers := prods } (pnL.getD k 0) { liveConsumerNode := [], liveConsumerIndexOfThis := [] }) with watcher := { producerNode := ((pnL.set k (pnL.getD (pnL.length - 1) 0)).dropLast), producerIndexOfThis := List.replicate (pnL.length - 1) 0, nextProducerIndex := pnL.length - 1 } } (pnL.getD (pnL.length - 1) 0) { liveConsumerNode := [0], liveConsumerIndexOfThis := [k] }) (pnL.getD k 0) =
        { liveConsumerNode := [], liveConsumerIndexOfThis := [] } := by
      rw [Poly.getProducer_set_ne _ _ _ _ (Ne.symm hsq)]
      show Poly.getProducer (Poly.setProducer { watcher := { producerNode := pnL, producerIndexOfThis := List.replicate pnL.length 0, nextProducerIndex := pnL.length }, producers := prods } (pnL.getD k 0) { liveConsumerNode := [], liveConsumerIndexOfThis := [] }) (pnL.getD k 0) = _
      exact Poly.getProducer_set_self _ _ _ hsf.1
    have hplen : (Poly.setProducer { (Poly.setProducer { watcher := { producerNode := pnL, producerIndexOfThis := List.replicate pnL.length 0, nextProducerIndex := pnL.length }, producers := prods } (pnL.getD k 0) { liveConsumerNode := [], liveConsumerIndexOfThis := [] }) with watcher := { producerNode := ((pnL.set k (pnL.getD (pnL.length - 1) 0)).dropLast), producerIndexOfThis := List.replicate (pnL.length - 1) 0, nextProducerIndex := pnL.length - 1 } } (pnL.getD (pnL.length - 1) 0) { liveConsumerNode := [0], liveConsumerIndexOfThis := [k] }).producers.length = prods.length := by
      rw [Poly.length_setProducer]
      exact hplen1
    refine ⟨by rw [hgps], hpn2len, ?_, ?_, ?_, ?_, ?_⟩
    · -- the removed producer is gone from the producer list
      rw [List.mem_iff_getElem]
      rintro ⟨i, hi, hval⟩
      rw [hpn2len] at hi
      have hv2 : (((pnL.set k (pnL.getD (pnL.length - 1) 0)).dropLast)).getD i 0 = pnL.getD k 0 := by
        rw [List.getD_eq_getElem _ _ (by rw [hpn2len]; exact hi)]
        exact hval
      rw [hchar i hi] at hv2
      by_cases hki : k = i
      · rw [if_pos hki] at hv2
        have := hinj (pnL.length - 1) k hl1 hk hv2
        omega
      · rw [if_neg hki] at hv2
        exact hki (hinj i k (by omega) hk hv2).symm
    · -- index array is all zeroes at the new length
      show List.replicate (pnL.length - 1) 0 = List.replicate ((((pnL.set k (pnL.getD (pnL.length - 1) 0)).dropLast)).length) 0
      rw [hpn2len]
    · -- nextProducerIndex tracks the new length
      show pnL.length - 1 = (((pnL.set k (pnL.getD (pnL.length - 1) 0)).dropLast)).length
      rw [hpn2len]
    · -- no duplicates after the swap-removal
      show (((pnL.set k (pnL.getD (pnL.length - 1) 0)).dropLast)).Nodup
      apply Poly.nodup_of_getD_inj
      intro i j hi hj heq
      rw [hpn2len] at hi hj
      rw [hchar i hi, hchar j hj] at heq
      by_cases hki : k = i <;> by_cases hkj : k = j
      · omega
      · rw [if_pos hki, if_neg hkj] at heq
        have := hinj (pnL.length - 1) j hl1 (by omega) heq
        omega
      · rw [if_neg hki, if_pos hkj] at heq
        have := hinj i (pnL.length - 1) (by omega) hl1 heq
        omega
      · rw [if_neg hki, if_neg hkj] at heq
        exact hinj i j (by omega) (by omega) heq
    · -- the bidirectional mirror on the remaining producers
      show ∀ i ∈ List.range ((((pnL.set k (pnL.getD (pnL.length - 1) 0)).dropLast)).length), (((pnL.set k (pnL.getD (pnL.length - 1) 0)).dropLast)).getD i 0 < ((Poly.setProducer { (Poly.setProducer { watcher := { producerNode := pnL, producerIndexOfThis := List.replicate pnL.length 0, nextProducerIndex := pnL.length }, producers := prods } (pnL.getD k 0) { liveConsumerNode := [], liveConsumerIndexOfThis := [] }) with watcher := { producerNode := ((pnL.set k (pnL.getD (pnL.length - 1) 0)).dropLast), producerIndexOfThis := List.replicate (pnL.length - 1) 0, nextProducerIndex := pnL.length - 1 } } (pnL.getD (pnL.length - 1) 0) { liveConsumerNode := [0], liveConsumerIndexOfThis := [k] })).producers.length ∧ Poly.getProducer (Poly.setProducer { (Poly.setProducer { watcher := { producerNode := pnL, producerIndexOfThis := List.replicate pnL.length 0, nextProducerIndex := pnL.length }, producers := prods } (pnL.getD k 0) { liveConsumerNode := [], liveConsumerIndexOfThis := [] }) with watcher := { producerNode := ((pnL.set k (pnL.getD (pnL.length - 1) 0)).dropLast), producerIndexOfThis := List.replicate (pnL.length - 1) 0, nextProducerIndex := pnL.length - 1 } } (pnL.getD (pnL.length - 1) 0) { liveConsumerNode := [0], liveConsumerIndexOfThis := [k] }) ((((pnL.set k (pnL.getD (pnL.length - 1) 0)).dropLast)).getD i 0) = { liveConsumerNode := [0], liveConsumerIndexOfThis := [i] }
      intro i hi
      rw [List.mem_range, hpn2len] at hi
      by_cases hki : k = i
      · subst hki
        rw [hp2k]
        refine ⟨by rw [hplen]; exact hqf.1, ?_⟩
        exact Poly.getProducer_set_self _ _ _ (by rw [hplen1]; exact hqf.1)
      · have hchr := hchar i hi
        rw [if_neg hki] at hchr
        rw [hchr]
        have hif := hmir i (List.mem_range.mpr (by omega))
        have hrq : pnL.getD i 0 ≠ (pnL.getD (pnL.length - 1) 0) := fun h => by
          have := hinj i (pnL.length - 1) (by omega) hl1 h
          omega
        have hrs : pnL.getD i 0 ≠ pnL.getD k 0 := fun h => by
          exact hki (hinj i k (by omega) hk h).symm
        refine ⟨by rw [hplen]; exact hif.1, ?_⟩
        rw [Poly.getProducer_set_ne _ _ _ _ (Ne.symm hrq)]
        show Poly.getProducer (Poly.setProducer { watcher := { producerNode := pnL, producerIndexOfThis := List.replicate pnL.length 0, nextProducerIndex := pnL.length }, producers := prods } (pnL.getD k 0) { liveConsumerNode := [], liveConsumerIndexOfThis := [] }) (pnL.getD i 0) = _
        rw [Poly.getProducer_set_ne _ _ _ _ (Ne.symm hrs)]
        exact hif.2
  · -- the removed producer was the last one: nothing is moved
    have hkeq : k = pnL.length - 1 := by omega
    have hss : pnL.set k (pnL.getD (pnL.length - 1) 0) = pnL := by
      rw [hkeq]
      exact List.set_getD_self _ _ _ hl1
    have hl2 : Poly.unwatchLoop2 [k] (Poly.setProducer { watcher := { producerNode := pnL, producerIndexOfThis := List.replicate pnL.length 0, nextProducerIndex := pnL.length }, producers := prods } (pnL.getD k 0) { liveConsumerNode := [], liveConsumerIndexOfThis := [] }) = { (Poly.setProducer { watcher := { producerNode := pnL, producerIndexOfThis := List.replicate pnL.length 0, nextProducerIndex := pnL.length }, producers := prods } (pnL.getD k 0) { liveConsumerNode := [], liveConsumerIndexOfThis := [] }) with watcher := { producerNode := ((pnL.set k (pnL.getD (pnL.length - 1) 0)).dropLast), producerIndexOfThis := List.replicate (pnL.length - 1) 0, nextProducerIndex := pnL.length - 1 } } := by
      simp only [Poly.unwatchLoop2, Poly.watcher_setProducer, hjs1, hjs2, hdrop]
      rw [if_neg (by rw [hpn2len]; omega)]
    rw [hl2]
    simp only [Poly.watcher_setProducer]
    have hgps : Poly.getProducer { (Poly.setProducer { watcher := { producerNode := pnL, producerIndexOfThis := List.replicate pnL.length 0, nextProducerIndex := pnL.length }, producers := prods } (pnL.getD k 0) { liveConsumerNode := [], liveConsumerIndexOfThis := [] }) with watcher := { producerNode := ((pnL.set k (pnL.getD (pnL.length - 1) 0)).dropLast), producerIndexOfThis := List.replicate (pnL.length - 1) 0, nextProducerIndex := pnL.length - 1 } } (pnL.getD k 0) = { liveConsumerNode := [], liveConsumerIndexOfThis := [] } := by
      show Poly.getProducer (Poly.setProducer { watcher := { producerNode := pnL, producerIndexOfThis := List.replicate pnL.length 0, nextProducerIndex := pnL.length }, producers := prods } (pnL.getD k 0) { liveConsumerNode := [], liveConsumerIndexOfThis := [] }) (pnL.getD k 0) = _
      exact Poly.getProducer_set_self _ _ _ hsf.1
    refine ⟨by rw [hgps], hpn2len, ?_, ?_, ?_, ?_, ?_⟩
    · rw [List.mem_iff_getElem]
      rintro ⟨i, hi, hval⟩
      rw [hpn2len] at hi
      have hv2 : (((pnL.set k (pnL.getD (pnL.length - 1) 0)).dropLast)).getD i 0 = pnL.getD k 0 := by
        rw [List.getD_eq_getElem _ _ (by rw [hpn2len]; exact hi)]
        exact hval
      rw [hchar i hi, if_neg (by omega)] at hv2
      have := hinj i k (by omega) hk hv2
      omega
    · show List.replicate (pnL.length - 1) 0 = List.replicate ((((pnL.set k (pnL.getD (pnL.length - 1) 0)).dropLast)).length) 0
      rw [hpn2len]
    · show pnL.length - 1 = (((pnL.set k (pnL.getD (pnL.length - 1) 0)).dropLast)).length
      rw [hpn2len]
    · show (((pnL.set k (pnL.getD (pnL.length - 1) 0)).dropLast)).Nodup
      rw [hss]
      exact (List.dropLast_sublist pnL).nodup hnd
    · show ∀ i ∈ List.range ((((pnL.set k (pnL.getD (pnL.length - 1) 0)).dropLast)).length), (((pnL.set k (pnL.getD (pnL.length - 1) 0)).dropLast)).getD i 0 < ({ (Poly.setProducer { watcher := { producerNode := pnL, producerIndexOfThis := List.replicate pnL.length 0, nextProducerIndex := pnL.length }, producers := prods } (pnL.getD k 0) { liveConsumerNode := [], liveConsumerIndexOfThis := [] }) with watcher := { producerNode := ((pnL.set k (pnL.getD (pnL.length - 1) 0)).dropLast), producerIndexOfThis := List.replicate (pnL.length - 1) 0, nextProducerIndex := pnL.length - 1 } }).producers.length ∧ Poly.getProducer { (Poly.setProducer { watcher := { producerNode := pnL, producerIndexOfThis := List.replicate pnL.length 0, nextProducerIndex := pnL.length }, producers := prods } (pnL.getD k 0) { liveConsumerNode := [], liveConsumerIndexOfThis := [] }) with watcher := { producerNode := ((pnL.set k (pnL.getD (pnL.length - 1) 0)).dropLast), producerIndexOfThis := List.replicate (pnL.length - 1) 0, nextProducerIndex := pnL.length - 1 } } ((((pnL.set k (pnL.getD (pnL.length - 1) 0)).dropLast)).getD i 0) = { liveConsumerNode := [0], liveConsumerIndexOfThis := [i] }
      intro i hi
      rw [List.mem_range, hpn2len] at hi
      have hchr := hchar i hi
      rw [if_neg (by omega)] at hchr
      rw [hchr]
      have hif := hmir i (List.mem_range.mpr (by omega))
      have hrs : pnL.getD i 0 ≠ pnL.getD k 0 := fun h => by
        have := hinj i k (by omega) hk h
        omega
      refine ⟨?_, ?_⟩
      · show pnL.getD i 0 < ((Poly.setProducer { watcher := { producerNode := pnL, producerIndexOfThis := List.replicate pnL.length 0, nextProducerIndex := pnL.length }, producers := prods } (pnL.getD k 0) { liveConsumerNode := [], liveConsumerIndexOfThis := [] })).producers.length
        rw [hplen1]
        exact hif.1
      show Poly.getProducer (Poly.setProducer { watcher := { producerNode := pnL, producerIndexOfThis := List.replicate pnL.length 0, nextProducerIndex := pnL.length }, producers := prods } (pnL.getD k 0) { liveConsumerNode := [], liveConsumerIndexOfThis := [] }) (pnL.getD i 0) = _
      rw [Poly.getProducer_set_ne _ _ _ _ (Ne.symm hrs)]
      exact hif.2

/-- C9 witness: removing the single producer watched at index 1 of
`Poly.c9St` leaves consistent bookkeeping. -/
theorem c9_theorem_witness :
    Poly.WF Poly.c9St ∧ 1 < Poly.c9St.watcher.producerNode.length ∧
    ((Poly.getProducer (Poly.unwatch Poly.c9St
        [Poly.c9St.watcher.producerNode.getD 1 0])
        (Poly.c9St.watcher.producerNode.getD 1 0)).liveConsumerNode = [] ∧
      (Poly.unwatch Poly.c9St
        [Poly.c9St.watcher.producerNode.getD 1 0]).watcher.producerNode.length =
        Poly.c9St.watcher.producerNode.length - 1 ∧
      Poly.c9St.watcher.producerNode.getD 1 0 ∉
        (Poly.unwatch Poly.c9St
          [Poly.c9St.watcher.producerNode.getD 1 0]).watcher.producerNode ∧
      Poly.WF (Poly.unwatch Poly.c9St [Poly.c9St.watcher.producerNode.getD 1 0])) :=
  ⟨by decide, by decide, c9_theorem Poly.c9St 1 (by decide) (by decide)⟩

end SignalsExample
